import Mathlib

/-!
Verification development for the sandboxed Lua interpreter in
`abstra_lua` (lexer.py, parser.py, interpreter.py, lua_table.py,
stdlib.py).  The Python source is shallowly embedded: Python `int` is
`Int` (arbitrary precision), Python `float` is abstracted as a rational
number together with the special values `inf`, `-inf`, `nan` (IEEE
doubles are a finite set of rationals plus these specials; every float
operation exercised by the claims — NaN tests, truncation to int,
exact equality — is exact on this abstraction), fallible code returns
`Except`.  Mutable objects (tables, interpreter state) are passed
explicitly.
-/

namespace AbstraLua

/-- Abstraction of a Python `float`: a finite value (a rational), or one
of the special values `inf`, `-inf`, `nan`. -/
inductive LuaFloat where
  | finite (q : ℚ)
  | inf
  | negInf
  | nan
deriving DecidableEq, Repr

/-- `math.isnan`. -/
def LuaFloat.isNan : LuaFloat → Bool
  | .nan => true
  | _ => false

/-- Python `==` on floats: `nan` compares unequal to everything
(including itself); other floats compare by value. -/
def LuaFloat.pyEq : LuaFloat → LuaFloat → Bool
  | .nan, _ => false
  | _, .nan => false
  | a, b => a == b

/-- The Python values handled by the interpreter: `None`, `bool`, `int`,
`float`, `str`, `LuaTable` and `BuiltinFunction` (the last two are
heap objects compared by identity, represented here by a numeric id).
User closures (`LuaFunction`) are omitted: no claim exercises them. -/
inductive PyVal where
  | nil
  | bool (b : Bool)
  | int (i : Int)
  | float (f : LuaFloat)
  | str (s : String)
  | table (id : Nat)
  | builtin (id : Nat)
deriving DecidableEq, Repr

/-- The exception classes that can escape the embedded code:
`LuaSyntaxError` and `LuaRuntimeError` from errors.py, and the Python
builtin exceptions `ValueError` and `OverflowError`. -/
inductive PyExc where
  | luaSyntaxError (msg : String) (line : Nat)
  | luaRuntimeError (msg : String)
  | valueError (msg : String)
  | overflowError (msg : String)
deriving DecidableEq, Repr

/-- The numeric value of a Python object for `==` purposes, when it has
one.  Python `bool` is a subclass of `int`, so `True`/`False` compare
numerically as `1`/`0`. -/
def pyNumVal : PyVal → Option LuaFloat
  | .bool b => some (.finite (if b then 1 else 0))
  | .int i => some (.finite (i : ℚ))
  | .float f => some f
  | _ => none

/-- Python `==` on the values above, as used for dict keys: numbers
(bool/int/float) compare by numeric value, strings by content, tables
and builtins by identity, everything else cross-type is unequal. -/
def pyEq (a b : PyVal) : Bool :=
  match pyNumVal a, pyNumVal b with
  | some x, some y => x.pyEq y
  | _, _ =>
    match a, b with
    | .nil, .nil => true
    | .str s, .str t => s == t
    | .table i, .table j => i == j
    | .builtin i, .builtin j => i == j
    | _, _ => false

/-- Python `int(x)` on a float: truncation toward zero; raises
`OverflowError` on infinities and `ValueError` on `nan`. -/
def pyIntOfFloat : LuaFloat → Except PyExc Int
  | .finite q => .ok (q.num / (q.den : Int))
  | .inf => .error (.overflowError "cannot convert float infinity to integer")
  | .negInf => .error (.overflowError "cannot convert float infinity to integer")
  | .nan => .error (.valueError "cannot convert float NaN to integer")

/-- Python `float(i)` on an int (exact in this abstraction). -/
def pyFloatOfInt (i : Int) : LuaFloat := .finite (i : ℚ)

/-- `LuaTable._normalize_key` (lua_table.py): a NaN float key raises
`table index is NaN`; a float key equal to its integer truncation is
replaced by that integer; other keys pass through. -/
def normalizeKey (key : PyVal) : Except PyExc PyVal :=
  match key with
  | .float f =>
    if f.isNan then .error (.luaRuntimeError "table index is NaN")
    else
      match pyIntOfFloat f with
      | .error e => .error e
      | .ok ik => if pyFloatOfInt ik == f then .ok (.int ik) else .ok key
  | _ => .ok key

/-- The backing `dict` of a table: an insertion-ordered association
list.  Keys are unique up to Python `==` (`pyEq`), so `dictSet`
replaces every matching entry and `dictPop` removes every matching
entry — on dicts built by these operations at most one entry ever
matches. -/
abbrev Dict := List (PyVal × PyVal)

/-- `self._data.get(key)`. -/
def dictGet (d : Dict) (k : PyVal) : Option PyVal :=
  match d.find? (fun e => pyEq k e.1) with
  | some e => some e.2
  | none => none

/-- `key in self._data`. -/
def dictMem (d : Dict) (k : PyVal) : Bool :=
  (dictGet d k).isSome

/-- `self._data[key] = value`: replace in place if the key is present
(the stored key object is kept, as in Python), else append. -/
def dictSet (d : Dict) (k v : PyVal) : Dict :=
  if dictMem d k then d.map (fun e => if pyEq k e.1 then (e.1, v) else e)
  else d ++ [(k, v)]

/-- `self._data.pop(key, None)` (the returned value is unused). -/
def dictPop (d : Dict) (k : PyVal) : Dict :=
  d.filter (fun e => !(pyEq k e.1))

/-- The state of a `LuaTable` (lua_table.py): the backing dict and the
`_sequence_hint`.  The metatable and the `next`-iteration cache are
omitted: none of the raw operations modelled here (`rawget`, `rawset`,
`length`) consults them in the source. -/
structure LuaTableM where
  data : Dict
  hint : Int
deriving DecidableEq, Repr

/-- `isinstance(key, int)` in Python (bool is a subclass of int). -/
def pyIsInstInt : PyVal → Bool
  | .bool _ => true
  | .int _ => true
  | _ => false

/-- The integer value a bool-or-int key denotes in arithmetic and
comparisons (`True` is `1`, `False` is `0`). -/
def keyIntVal : PyVal → Int
  | .bool b => if b then 1 else 0
  | .int i => i
  | _ => 0

/-- The hint-extension loop of `rawset`:
`while (self._sequence_hint + 1) in self._data: self._sequence_hint += 1`.
Fuel `d.length + 1` always suffices: each successful test consumes a
distinct dict entry (an entry key is `==` to at most one integer). -/
def extendHint (d : Dict) : Int → Nat → Int
  | h, 0 => h
  | h, fuel + 1 => if dictMem d (.int (h + 1)) then extendHint d (h + 1) fuel else h

/-- `LuaTable.rawget`: normalize the key (which can raise on NaN), treat
a nil key as absent, and look the key up, with absence read as nil. -/
def LuaTableM.rawget (t : LuaTableM) (key : PyVal) : Except PyExc PyVal := do
  let key ← normalizeKey key
  if key = .nil then pure .nil
  else pure ((dictGet t.data key).getD .nil)

/-- The data update of `rawset`: a nil value deletes the key, any other
value stores it. -/
def rawsetData (d : Dict) (key value : PyVal) : Dict :=
  if value = .nil then dictPop d key else dictSet d key value

/-- The sequence-hint update of `rawset`, on the already-updated dict
`d`: for an integer key `>= 1`, a non-nil store at `hint + 1` extends
the hint by the `while` loop, and a deletion at or below the hint
retracts it to `key - 1`. -/
def rawsetHint (t : LuaTableM) (key value : PyVal) (d : Dict) : Int :=
  if pyIsInstInt key ∧ 1 ≤ keyIntVal key then
    if value ≠ .nil ∧ keyIntVal key = t.hint + 1 then
      extendHint d (keyIntVal key) (d.length + 1)
    else if value = .nil ∧ keyIntVal key ≤ t.hint then
      keyIntVal key - 1
    else t.hint
  else t.hint

/-- `LuaTable.rawset`: normalize the key, reject a nil key, delete on a
nil value and store otherwise, then update the sequence hint exactly as
the source does. -/
def LuaTableM.rawset (t : LuaTableM) (key value : PyVal) : Except PyExc LuaTableM := do
  let key ← normalizeKey key
  if key = .nil then throw (.luaRuntimeError "table index is nil")
  else
    let d := rawsetData t.data key value
    pure ⟨d, rawsetHint t key value d⟩

/-- The doubling loop of `LuaTable.length`:
`while j in self._data: j *= 2`.  Fuel `d.length + 1` suffices (each
passed test consumes a distinct entry). -/
def findDouble (d : Dict) : Nat → Nat → Nat
  | j, 0 => j
  | j, fuel + 1 => if dictMem d (.int (j : Int)) then findDouble d (j * 2) fuel else j

/-- The binary-search loop of `LuaTable.length`.  The interval shrinks
every iteration, so fuel `hi` suffices. -/
def binSearch (d : Dict) : Nat → Nat → Nat → Nat
  | lo, _, 0 => lo
  | lo, hi, fuel + 1 =>
    if hi - lo > 1 then
      let mid := (lo + hi) / 2
      if dictMem d (.int (mid : Int)) then binSearch d mid hi fuel
      else binSearch d lo mid fuel
    else lo

/-- `LuaTable.length`: fast path through the hint, otherwise
exponential-then-binary search; the fallback also stores the found
border back into the hint.  Returns the result together with the
(possibly updated) table. -/
def LuaTableM.lengthM (t : LuaTableM) : Int × LuaTableM :=
  if 0 ≤ t.hint ∧ ¬ dictMem t.data (.int (t.hint + 1)) then (t.hint, t)
  else if ¬ dictMem t.data (.int 1) then (0, t)
  else
    let j := findDouble t.data 1 (t.data.length + 1)
    let lo := binSearch t.data (j / 2) j j
    ((lo : Int), ⟨t.data, (lo : Int)⟩)

lemma LuaFloat.pyEq_finite (x y : ℚ) : LuaFloat.pyEq (.finite x) (.finite y) = decide (x = y) := by
  simp only [LuaFloat.pyEq]
  by_cases h : x = y <;> simp [h, BEq.beq]

lemma pyEq_int_int (a b : Int) : pyEq (.int a) (.int b) = decide (a = b) := by
  simp only [pyEq, pyNumVal, LuaFloat.pyEq_finite]
  by_cases h : a = b <;> simp [h]

lemma pyEq_int_floatFin (j : Int) (q : ℚ) :
    pyEq (.int j) (.float (.finite q)) = true ↔ q.den = 1 ∧ q.num = j := by
  simp only [pyEq, pyNumVal, LuaFloat.pyEq_finite, decide_eq_true_eq]
  constructor
  · intro h
    rw [← h]
    simp
  · rintro ⟨h1, h2⟩
    rw [← h2]
    exact (Rat.den_eq_one_iff q).mp h1

/-- The unique integer a key compares Python-equal to, if any. -/
def intOfKey : PyVal → Option Int
  | .bool b => some (if b then 1 else 0)
  | .int i => some i
  | .float (.finite q) => if q.den = 1 then some q.num else none
  | _ => none

lemma pyEq_int_iff (j : Int) (k : PyVal) : pyEq (.int j) k = true ↔ intOfKey k = some j := by
  cases k with
  | nil => simp [pyEq, pyNumVal, intOfKey]
  | bool b =>
    cases b <;> simp [pyEq, pyNumVal, intOfKey, LuaFloat.pyEq_finite] <;> omega
  | int i => simp [pyEq_int_int, intOfKey, eq_comm]
  | float f =>
    cases f with
    | finite q =>
      rw [pyEq_int_floatFin]
      simp only [intOfKey]
      by_cases h : q.den = 1 <;> simp [h, eq_comm]
    | inf => simp [pyEq, pyNumVal, LuaFloat.pyEq, intOfKey]
    | negInf => simp [pyEq, pyNumVal, LuaFloat.pyEq, intOfKey]
    | nan => simp [pyEq, pyNumVal, LuaFloat.pyEq, intOfKey]
  | str s => simp [pyEq, pyNumVal, intOfKey]
  | table i => simp [pyEq, pyNumVal, intOfKey]
  | builtin i => simp [pyEq, pyNumVal, intOfKey]

/-- `intOfKey` through the numeric value of a key. -/
def ratIntOf : LuaFloat → Option Int
  | .finite q => if q.den = 1 then some q.num else none
  | _ => none

lemma intOfKey_numeric (a : PyVal) (x : LuaFloat) (h : pyNumVal a = some x) :
    intOfKey a = ratIntOf x := by
  cases a with
  | bool b =>
    simp only [pyNumVal, Option.some.injEq] at h
    subst h
    cases b <;> simp [intOfKey, ratIntOf]
  | int i =>
    simp only [pyNumVal, Option.some.injEq] at h
    subst h
    simp [intOfKey, ratIntOf, Rat.den_intCast, Rat.num_intCast]
  | float f =>
    simp only [pyNumVal, Option.some.injEq] at h
    subst h
    cases f <;> simp [intOfKey, ratIntOf]
  | nil => simp_all [pyNumVal]
  | str s => simp_all [pyNumVal]
  | table i => simp_all [pyNumVal]
  | builtin i => simp_all [pyNumVal]

lemma LuaFloat.pyEq_eq (x y : LuaFloat) (h : LuaFloat.pyEq x y = true) : x = y := by
  cases x <;> cases y <;> simp_all [LuaFloat.pyEq, LuaFloat.pyEq_finite, BEq.beq]

lemma pyEq_intOfKey (a b : PyVal) (h : pyEq a b = true) : intOfKey a = intOfKey b := by
  cases ha : pyNumVal a with
  | some x =>
    cases hb : pyNumVal b with
    | some y =>
      have hxy : LuaFloat.pyEq x y = true := by
        simpa [pyEq, ha, hb] using h
      rw [intOfKey_numeric a x ha, intOfKey_numeric b y hb, LuaFloat.pyEq_eq x y hxy]
    | none =>
      cases a <;> cases b <;> simp_all [pyEq, pyNumVal, intOfKey]
  | none =>
    cases a <;> cases b <;> simp_all [pyEq, pyNumVal, intOfKey]

lemma dictMem_iff (d : Dict) (k : PyVal) :
    dictMem d k = true ↔ ∃ e ∈ d, pyEq k e.1 = true := by
  unfold dictMem dictGet
  rcases hf : d.find? (fun e => pyEq k e.1) with _ | e
  · rw [hf]
    simp only [Option.isSome_none, Bool.false_eq_true, false_iff]
    rintro ⟨e, he, hp⟩
    have hn := List.find?_eq_none.mp hf e he
    simp [hp] at hn
  · rw [hf]
    have hmem := List.mem_of_find?_eq_some hf
    have hp := List.find?_some hf
    simp only [Option.isSome_some, true_iff]
    exact ⟨e, hmem, hp⟩

lemma dictMemInt_iff (d : Dict) (j : Int) :
    dictMem d (.int j) = true ↔ ∃ e ∈ d, intOfKey e.1 = some j := by
  rw [dictMem_iff]
  constructor
  · rintro ⟨e, he, hp⟩
    exact ⟨e, he, (pyEq_int_iff j e.1).mp hp⟩
  · rintro ⟨e, he, hk⟩
    exact ⟨e, he, (pyEq_int_iff j e.1).mpr hk⟩

lemma dictMem_int_dictSet (d : Dict) (k v : PyVal) (j : Int) :
    dictMem (dictSet d k v) (.int j) = true ↔
      dictMem d (.int j) = true ∨ intOfKey k = some j := by
  unfold dictSet
  by_cases hm : dictMem d k = true
  · rw [if_pos hm]
    rw [dictMemInt_iff, dictMemInt_iff]
    constructor
    · rintro ⟨e, he, hk⟩
      rw [List.mem_map] at he
      obtain ⟨e0, he0, rfl⟩ := he
      left
      refine ⟨e0, he0, ?_⟩
      by_cases hpe : pyEq k e0.1 = true
      · simpa [hpe] using hk
      · simpa [hpe] using hk
    · rintro (⟨e, he, hk⟩ | hk)
      · refine ⟨if pyEq k e.1 then (e.1, v) else e, List.mem_map_of_mem _ he, ?_⟩
        by_cases hpe : pyEq k e.1 = true
        · simpa [hpe] using hk
        · simpa [hpe] using hk
      · obtain ⟨e, he, hpe⟩ := (dictMem_iff d k).mp hm
        refine ⟨if pyEq k e.1 then (e.1, v) else e, List.mem_map_of_mem _ he, ?_⟩
        have hie : intOfKey e.1 = some j := by rw [← pyEq_intOfKey k e.1 hpe]; exact hk
        by_cases hq : pyEq k e.1 = true
        · simpa [hq] using hie
        · simpa [hq] using hie
  · rw [if_neg hm]
    rw [dictMemInt_iff, dictMemInt_iff]
    constructor
    · rintro ⟨e, he, hk⟩
      rw [List.mem_append] at he
      rcases he with he | he
      · exact Or.inl ⟨e, he, hk⟩
      · simp at he
        subst he
        exact Or.inr hk
    · rintro (⟨e, he, hk⟩ | hk)
      · exact ⟨e, List.mem_append_left _ he, hk⟩
      · exact ⟨(k, v), List.mem_append_right _ (by simp), hk⟩

lemma dictMem_int_dictPop (d : Dict) (k : PyVal) (j : Int) :
    dictMem (dictPop d k) (.int j) = true ↔
      ∃ e ∈ d, intOfKey e.1 = some j ∧ pyEq k e.1 = false := by
  unfold dictPop
  rw [dictMemInt_iff]
  constructor
  · rintro ⟨e, he, hk⟩
    rw [List.mem_filter] at he
    refine ⟨e, he.1, hk, ?_⟩
    simpa using he.2
  · rintro ⟨e, he, hk, hne⟩
    exact ⟨e, List.mem_filter.mpr ⟨he, by simp [hne]⟩, hk⟩

lemma extendHint_ge (d : Dict) (fuel : Nat) (m : Int) : m ≤ extendHint d m fuel := by
  induction fuel generalizing m with
  | zero => simp [extendHint]
  | succ n ih =>
    unfold extendHint
    split
    · exact le_trans (by omega) (ih (m + 1))
    · exact le_refl m

lemma extendHint_le (d : Dict) (fuel : Nat) (m : Int) :
    extendHint d m fuel ≤ m + fuel := by
  induction fuel generalizing m with
  | zero => simp [extendHint]
  | succ n ih =>
    unfold extendHint
    split
    · exact le_trans (ih (m + 1)) (by omega)
    · omega

lemma extendHint_mem (d : Dict) (fuel : Nat) (m j : Int) (h1 : m < j)
    (h2 : j ≤ extendHint d m fuel) : dictMem d (.int j) = true := by
  induction fuel generalizing m with
  | zero => simp [extendHint] at h2; omega
  | succ n ih =>
    unfold extendHint at h2
    by_cases hc : dictMem d (.int (m + 1)) = true
    · rw [if_pos hc] at h2
      rcases eq_or_lt_of_le (show m + 1 ≤ j by omega) with heq | hlt
      · rw [← heq]; exact hc
      · exact ih (m + 1) hlt h2
    · rw [if_neg hc] at h2
      omega

lemma extendHint_stop (d : Dict) (fuel : Nat) (m : Int)
    (h : extendHint d m fuel < m + fuel) :
    dictMem d (.int (extendHint d m fuel + 1)) = false := by
  induction fuel generalizing m with
  | zero =>
    simp [extendHint] at h
  | succ n ih =>
    by_cases hc : dictMem d (.int (m + 1)) = true
    · rw [extendHint, if_pos hc] at h ⊢
      exact ih (m + 1) (by push_cast at h ⊢; omega)
    · rw [extendHint, if_neg hc]
      simpa using hc

lemma consecutive_mem_le_length (d : Dict) (m : Int) (L : Nat)
    (h : ∀ j : Int, m < j → j ≤ m + L → dictMem d (.int j) = true) :
    L ≤ d.length := by
  classical
  have hsub : Finset.Icc (m + 1) (m + L) ⊆
      (d.filterMap (fun e => intOfKey e.1)).toFinset := by
    intro x hx
    rw [Finset.mem_Icc] at hx
    have hm := h x (by omega) (by omega)
    rw [dictMemInt_iff] at hm
    obtain ⟨e, he, hk⟩ := hm
    rw [List.mem_toFinset, List.mem_filterMap]
    exact ⟨e, he, hk⟩
  have h1 := Finset.card_le_card hsub
  rw [Int.card_Icc] at h1
  have h2 := (d.filterMap (fun e => intOfKey e.1)).toFinset_card_le
  have h3 := List.length_filterMap_le (fun e => intOfKey e.1) d
  omega

lemma extendHint_spec (d : Dict) (m : Int) :
    dictMem d (.int (extendHint d m (d.length + 1) + 1)) = false := by
  by_cases hlt : extendHint d m (d.length + 1) < m + (d.length + 1)
  · exact extendHint_stop d (d.length + 1) m hlt
  · exfalso
    have hle := extendHint_le d (d.length + 1) m
    have heq : extendHint d m (d.length + 1) = m + (d.length + 1) := by omega
    have hall : ∀ j : Int, m < j → j ≤ m + (d.length + 1) →
        dictMem d (.int j) = true := by
      intro j hj1 hj2
      exact extendHint_mem d (d.length + 1) m j hj1 (by omega)
    have := consecutive_mem_le_length d m (d.length + 1) hall
    omega

lemma pyEq_instInt (k' x : PyVal) (h : pyIsInstInt k' = true) :
    pyEq k' x = pyEq (.int (keyIntVal k')) x := by
  cases k' with
  | bool b => cases b <;> cases x <;> simp [pyEq, pyNumVal, keyIntVal]
  | int i => rfl
  | _ => simp [pyIsInstInt] at h

/-- Keys produced by `normalizeKey` compare equal to an integer exactly
when they are Python ints (including bools), with their integer value. -/
lemma intOfKey_of_norm (k k' : PyVal) (h : normalizeKey k = .ok k') :
    intOfKey k' = if pyIsInstInt k' then some (keyIntVal k') else none := by
  have hfl : ∀ f, k' = .float f → ∃ q, f = .finite q ∧ q.den ≠ 1 := by
    intro f hf
    subst hf
    cases k with
    | float g =>
      cases g with
      | finite q =>
        simp only [normalizeKey, LuaFloat.isNan, Bool.false_eq_true, if_false,
          pyIntOfFloat] at h
        by_cases he : (pyFloatOfInt (q.num / (q.den : Int)) == LuaFloat.finite q) = true
        · rw [if_pos he] at h
          simp at h
        · rw [if_neg he] at h
          simp only [Except.ok.injEq, PyVal.float.injEq] at h
          refine ⟨q, h.symm, fun hden => he ?_⟩
          have hnum : (q.num : ℚ) = q := (Rat.den_eq_one_iff q).mp hden
          have hdiv : q.num / (q.den : Int) = q.num := by rw [hden]; simp
          rw [hdiv]
          simp [pyFloatOfInt, hnum]
      | inf => simp [normalizeKey, LuaFloat.isNan, pyIntOfFloat] at h
      | negInf => simp [normalizeKey, LuaFloat.isNan, pyIntOfFloat] at h
      | nan => simp [normalizeKey, LuaFloat.isNan] at h
    | nil => simp [normalizeKey] at h
    | bool b => simp [normalizeKey] at h
    | int i => simp [normalizeKey] at h
    | str s => simp [normalizeKey] at h
    | table i => simp [normalizeKey] at h
    | builtin i => simp [normalizeKey] at h
  cases k' with
  | bool b => cases b <;> simp [intOfKey, pyIsInstInt, keyIntVal]
  | int i => simp [intOfKey, pyIsInstInt, keyIntVal]
  | float f =>
    obtain ⟨q, rfl, hden⟩ := hfl f rfl
    simp [intOfKey, pyIsInstInt, hden]
  | nil => simp [intOfKey, pyIsInstInt]
  | str s => simp [intOfKey, pyIsInstInt]
  | table i => simp [intOfKey, pyIsInstInt]
  | builtin i => simp [intOfKey, pyIsInstInt]

lemma rawset_ok_destruct (t : LuaTableM) (k v : PyVal) (t' : LuaTableM)
    (h : t.rawset k v = .ok t') :
    ∃ k', normalizeKey k = .ok k' ∧ k' ≠ .nil ∧
      t' = ⟨rawsetData t.data k' v, rawsetHint t k' v (rawsetData t.data k' v)⟩ := by
  unfold LuaTableM.rawset at h
  cases hk : normalizeKey k with
  | error e => rw [hk] at h; simp [Bind.bind, Except.bind] at h
  | ok k' =>
    rw [hk] at h
    simp only [Bind.bind, Except.bind] at h
    by_cases hn : k' = .nil
    · rw [if_pos hn] at h
      simp [throw, throwThe, MonadExceptOf.throw] at h
    · rw [if_neg hn] at h
      simp only [pure, Except.pure, Except.ok.injEq] at h
      exact ⟨k', rfl, hn, h.symm⟩

/-- The sequence-hint invariant the table operations maintain: the hint
is non-negative, indices `1 .. hint` are all present, and `hint + 1` is
absent. -/
def seqInv (t : LuaTableM) : Prop :=
  0 ≤ t.hint ∧ (∀ j : Int, 1 ≤ j → j ≤ t.hint → dictMem t.data (.int j) = true) ∧
    dictMem t.data (.int (t.hint + 1)) = false

/-- Tables reachable from a fresh table by the operations the claims
quantify over: `rawset` (with nil or non-nil values) and `length`
recomputation. -/
inductive TableReach : LuaTableM → Prop where
  | empty : TableReach ⟨[], 0⟩
  | set (t : LuaTableM) (k v : PyVal) (t' : LuaTableM) :
      TableReach t → t.rawset k v = .ok t' → TableReach t'
  | len (t : LuaTableM) : TableReach t → TableReach (t.lengthM).2

lemma dictPop_subset (d : Dict) (k : PyVal) (j : Int)
    (h : dictMem (dictPop d k) (.int j) = true) : dictMem d (.int j) = true := by
  rw [dictMem_int_dictPop] at h
  obtain ⟨e, he, hk, _⟩ := h
  exact (dictMemInt_iff d j).mpr ⟨e, he, hk⟩

lemma seqInv_mk (d : Dict) (h : Int) (h0 : 0 ≤ h)
    (hmem : ∀ j : Int, 1 ≤ j → j ≤ h → dictMem d (.int j) = true)
    (habs : dictMem d (.int (h + 1)) = false) : seqInv ⟨d, h⟩ :=
  ⟨h0, hmem, habs⟩

lemma seqInv_rawset (t : LuaTableM) (k v : PyVal) (t' : LuaTableM)
    (h : t.rawset k v = .ok t') (hinv : seqInv t) : seqInv t' := by
  obtain ⟨k', hk, hn, rfl⟩ := rawset_ok_destruct t k v t' h
  obtain ⟨hi0, himem, hiabs⟩ := hinv
  have hkey := intOfKey_of_norm k k' hk
  by_cases hv : v = .nil
  · -- deletion: the data shrinks to dictPop
    have hd : rawsetData t.data k' v = dictPop t.data k' := by
      unfold rawsetData; rw [if_pos hv]
    rw [hd]
    by_cases hb1 : pyIsInstInt k' = true ∧ 1 ≤ keyIntVal k'
    · have hik : intOfKey k' = some (keyIntVal k') := by
        rw [hkey, if_pos hb1.1]
      by_cases hb3 : keyIntVal k' ≤ t.hint
      · -- retraction: new hint is keyIntVal k' - 1
        rw [show rawsetHint t k' v (dictPop t.data k') = keyIntVal k' - 1 by
          unfold rawsetHint
          rw [if_pos hb1, if_neg (by simp [hv]), if_pos ⟨hv, hb3⟩]]
        refine seqInv_mk _ _ (by omega) ?_ ?_
        · intro j hj1 hj2
          rw [dictMem_int_dictPop]
          obtain ⟨e, he, hie⟩ := (dictMemInt_iff _ _).mp (himem j hj1 (by omega))
          refine ⟨e, he, hie, ?_⟩
          cases hpe : pyEq k' e.1 with
          | false => rfl
          | true =>
            exfalso
            rw [pyEq_instInt k' e.1 hb1.1, pyEq_int_iff] at hpe
            rw [hpe] at hie
            simp only [Option.some.injEq] at hie
            omega
        · have habs : ¬ dictMem (dictPop t.data k')
              (.int (keyIntVal k' - 1 + 1)) = true := by
            rw [dictMem_int_dictPop]
            rintro ⟨e, he, hie, hne⟩
            rw [pyEq_instInt k' e.1 hb1.1] at hne
            rw [show keyIntVal k' - 1 + 1 = keyIntVal k' by omega] at hie
            rw [(pyEq_int_iff (keyIntVal k') e.1).mpr hie] at hne
            simp at hne
          simpa using habs
      · -- deletion above the hint: hint unchanged
        rw [show rawsetHint t k' v (dictPop t.data k') = t.hint by
          unfold rawsetHint
          rw [if_pos hb1, if_neg (by simp [hv]), if_neg (by simp [hv, hb3])]]
        refine seqInv_mk _ _ hi0 ?_ ?_
        · intro j hj1 hj2
          rw [dictMem_int_dictPop]
          obtain ⟨e, he, hie⟩ := (dictMemInt_iff _ _).mp (himem j hj1 hj2)
          refine ⟨e, he, hie, ?_⟩
          cases hpe : pyEq k' e.1 with
          | false => rfl
          | true =>
            exfalso
            rw [pyEq_instInt k' e.1 hb1.1, pyEq_int_iff] at hpe
            rw [hpe] at hie
            simp only [Option.some.injEq] at hie
            omega
        · have habs : ¬ dictMem (dictPop t.data k') (.int (t.hint + 1)) = true := by
            intro hm
            rw [dictPop_subset t.data k' _ hm] at hiabs
            simp at hiabs
          simpa using habs
    · -- non-sequence key deleted: hint unchanged
      rw [show rawsetHint t k' v (dictPop t.data k') = t.hint by
        unfold rawsetHint; rw [if_neg hb1]]
      refine seqInv_mk _ _ hi0 ?_ ?_
      · intro j hj1 hj2
        rw [dictMem_int_dictPop]
        obtain ⟨e, he, hie⟩ := (dictMemInt_iff _ _).mp (himem j hj1 hj2)
        refine ⟨e, he, hie, ?_⟩
        cases hpe : pyEq k' e.1 with
        | false => rfl
        | true =>
          exfalso
          have hsame := pyEq_intOfKey k' e.1 hpe
          rw [hkey, hie] at hsame
          by_cases hbi : pyIsInstInt k' = true
          · rw [if_pos hbi] at hsame
            simp only [Option.some.injEq] at hsame
            exact hb1 ⟨hbi, by omega⟩
          · rw [if_neg hbi] at hsame
            simp at hsame
      · have habs : ¬ dictMem (dictPop t.data k') (.int (t.hint + 1)) = true := by
          intro hm
          rw [dictPop_subset t.data k' _ hm] at hiabs
          simp at hiabs
        simpa using habs
  · -- store: the data grows to dictSet
    have hd : rawsetData t.data k' v = dictSet t.data k' v := by
      unfold rawsetData; rw [if_neg hv]
    rw [hd]
    by_cases hb1 : pyIsInstInt k' = true ∧ 1 ≤ keyIntVal k'
    · have hik : intOfKey k' = some (keyIntVal k') := by
        rw [hkey, if_pos hb1.1]
      by_cases hb2 : keyIntVal k' = t.hint + 1
      · -- extension by the while loop
        rw [show rawsetHint t k' v (dictSet t.data k' v) =
            extendHint (dictSet t.data k' v) (keyIntVal k')
              ((dictSet t.data k' v).length + 1) by
          unfold rawsetHint
          rw [if_pos hb1, if_pos ⟨hv, hb2⟩]]
        have hge := extendHint_ge (dictSet t.data k' v)
          ((dictSet t.data k' v).length + 1) (keyIntVal k')
        have hkv : dictMem (dictSet t.data k' v) (.int (keyIntVal k')) = true := by
          rw [dictMem_int_dictSet]
          exact Or.inr hik
        refine seqInv_mk _ _ (by omega) ?_ ?_
        · intro j hj1 hj2
          rcases lt_trichotomy j (keyIntVal k') with hlt | heq | hgt
          · rw [dictMem_int_dictSet]
            exact Or.inl (himem j hj1 (by omega))
          · rw [heq]; exact hkv
          · exact extendHint_mem _ _ (keyIntVal k') j hgt hj2
        · exact extendHint_spec (dictSet t.data k' v) (keyIntVal k')
      · -- store elsewhere: hint unchanged
        rw [show rawsetHint t k' v (dictSet t.data k' v) = t.hint by
          unfold rawsetHint
          rw [if_pos hb1, if_neg (by simp [hb2]), if_neg (by simp [hv])]]
        refine seqInv_mk _ _ hi0 ?_ ?_
        · intro j hj1 hj2
          rw [dictMem_int_dictSet]
          exact Or.inl (himem j hj1 hj2)
        · have habs : ¬ dictMem (dictSet t.data k' v) (.int (t.hint + 1)) = true := by
            rw [dictMem_int_dictSet]
            rintro (hm | hm)
            · rw [hm] at hiabs; simp at hiabs
            · rw [hik] at hm
              simp only [Option.some.injEq] at hm
              omega
          simpa using habs
    · -- non-sequence key stored: hint unchanged
      rw [show rawsetHint t k' v (dictSet t.data k' v) = t.hint by
        unfold rawsetHint; rw [if_neg hb1]]
      refine seqInv_mk _ _ hi0 ?_ ?_
      · intro j hj1 hj2
        rw [dictMem_int_dictSet]
        exact Or.inl (himem j hj1 hj2)
      · have habs : ¬ dictMem (dictSet t.data k' v) (.int (t.hint + 1)) = true := by
          rw [dictMem_int_dictSet]
          rintro (hm | hm)
          · rw [hm] at hiabs; simp at hiabs
          · rw [hkey] at hm
            by_cases hbi : pyIsInstInt k' = true
            · rw [if_pos hbi] at hm
              simp only [Option.some.injEq] at hm
              exact hb1 ⟨hbi, by omega⟩
            · rw [if_neg hbi] at hm
              simp at hm
        simpa using habs

lemma seqInv_length (t : LuaTableM) (hinv : seqInv t) :
    t.lengthM = (t.hint, t) := by
  obtain ⟨hi0, _, hiabs⟩ := hinv
  unfold LuaTableM.lengthM
  rw [if_pos ⟨hi0, by simp [hiabs]⟩]

lemma reach_seqInv (t : LuaTableM) (h : TableReach t) : seqInv t := by
  induction h with
  | empty =>
    refine ⟨le_refl 0, ?_, by decide⟩
    intro j hj1 hj2
    change j ≤ 0 at hj2
    omega
  | set t k v t' hr hset ih => exact seqInv_rawset t k v t' hset ih
  | len t hr ih =>
    rw [seqInv_length t ih]
    exact ih

/-- A concrete reachable table used by witnesses: the result of
`rawset(1, 10)` on a fresh table. -/
def sampleTable : LuaTableM := ⟨[(.int 1, .int 10)], 1⟩

lemma sampleTable_reach : TableReach sampleTable :=
  TableReach.set ⟨[], 0⟩ (.int 1) (.int 10) sampleTable TableReach.empty (by rfl)

/-- C8: on every table reachable by the modelled operations (rawset of a
non-nil value, rawset of nil, length recomputation) the sequence-length
hint `h` satisfies `h = 0` or `t[h]` present: the hint may under-report
but never over-reports. -/
theorem claim_C8_hint_never_overreports (t : LuaTableM) (h : TableReach t) :
    t.hint = 0 ∨ dictMem t.data (.int t.hint) = true := by
  obtain ⟨hi0, hmem, _⟩ := reach_seqInv t h
  rcases eq_or_lt_of_le hi0 with heq | hlt
  · exact Or.inl heq.symm
  · exact Or.inr (hmem t.hint (by omega) le_rfl)

/-- Witness for C8 at the concrete table `rawset(1, 10)` on a fresh
table. -/
theorem claim_C8_hint_never_overreports_witness :
    sampleTable.hint = 0 ∨ dictMem sampleTable.data (.int sampleTable.hint) = true :=
  claim_C8_hint_never_overreports sampleTable sampleTable_reach

/-- C7: on every reachable table, `length` returns `n ≥ 0` with `t[n+1]`
absent and (`n = 0` or `t[n]` present); consequently on a table whose
integer keys are exactly `1 .. n` it returns `n`. -/
theorem claim_C7_length_border (t : LuaTableM) (h : TableReach t) :
    (0 ≤ t.lengthM.1 ∧
      dictMem t.data (.int (t.lengthM.1 + 1)) = false ∧
      (t.lengthM.1 = 0 ∨ dictMem t.data (.int t.lengthM.1) = true)) ∧
    (∀ n : Int, 0 ≤ n →
      (∀ j : Int, dictMem t.data (.int j) = true ↔ 1 ≤ j ∧ j ≤ n) →
      t.lengthM.1 = n) := by
  have hinv := reach_seqInv t h
  have hlen := seqInv_length t hinv
  obtain ⟨hi0, hmem, habs⟩ := hinv
  rw [hlen]
  constructor
  · refine ⟨hi0, habs, ?_⟩
    rcases eq_or_lt_of_le hi0 with he | hl
    · exact Or.inl he.symm
    · exact Or.inr (hmem t.hint (by omega) le_rfl)
  · intro n hn hks
    have h1 : ¬(1 ≤ t.hint + 1 ∧ t.hint + 1 ≤ n) := by
      rw [← hks]
      simp [habs]
    rcases eq_or_lt_of_le hi0 with he | hl
    · omega
    · have h2 : 1 ≤ t.hint ∧ t.hint ≤ n := (hks t.hint).mp (hmem t.hint (by omega) le_rfl)
      omega

/-- Witness for C7 at the concrete table `rawset(1, 10)` on a fresh
table, whose integer key set is exactly 1..1. -/
theorem claim_C7_length_border_witness :
    ((0 ≤ sampleTable.lengthM.1 ∧
      dictMem sampleTable.data (.int (sampleTable.lengthM.1 + 1)) = false ∧
      (sampleTable.lengthM.1 = 0 ∨
        dictMem sampleTable.data (.int sampleTable.lengthM.1) = true)) ∧
      sampleTable.lengthM.1 = 1) := by
  refine ⟨(claim_C7_length_border sampleTable sampleTable_reach).1, ?_⟩
  refine (claim_C7_length_border sampleTable sampleTable_reach).2 1 (by decide) ?_
  intro j
  simp only [sampleTable, dictMem, dictGet, List.find?, pyEq_int_int]
  by_cases hj : j = 1
  · simp [hj]
  · simp [hj]
    omega

/-- C10: a nil key is read as absent by `rawget` but rejected by
`rawset` with `table index is nil`; a NaN float key is rejected by both
with `table index is NaN`. -/
theorem claim_C10_invalid_key_asymmetry (t : LuaTableM) (v : PyVal) :
    t.rawget .nil = .ok .nil ∧
    t.rawset .nil v = .error (.luaRuntimeError "table index is nil") ∧
    t.rawget (.float .nan) = .error (.luaRuntimeError "table index is NaN") ∧
    t.rawset (.float .nan) v = .error (.luaRuntimeError "table index is NaN") := by
  refine ⟨rfl, rfl, rfl, rfl⟩

/-- The loop of `_tbl_pack` (stdlib.py):
`for i, v in enumerate(args, 1): t.rawset(i, v)`. -/
def packLoop (t : LuaTableM) (i : Int) : List PyVal → Except PyExc LuaTableM
  | [] => .ok t
  | v :: rest => do
    let t' ← t.rawset (.int i) v
    packLoop t' (i + 1) rest

/-- `_tbl_pack` (stdlib.py): a fresh table with the arguments at keys
`1..n` and the count at key `"n"`. -/
def tblPack (args : List PyVal) : Except PyExc LuaTableM := do
  let t ← packLoop ⟨[], 0⟩ 1 args
  t.rawset (.str "n") (.int args.length)

/-- Python `range(i, j + 1)` as a list of integers. -/
def rangeList (i j : Int) : List Int :=
  (List.range (j + 1 - i).toNat).map (fun k => i + k)

/-- The loop of `_unpack` (stdlib.py):
`for idx in range(i, j + 1): result.append(t.rawget(idx))`. -/
def unpackRange (t : LuaTableM) (i j : Int) : Except PyExc (List PyVal) :=
  (rangeList i j).mapM (fun idx => t.rawget (.int idx))

/-- `_unpack` (stdlib.py) on a table argument: `i` defaults to 1 and
`j` defaults to `t.length()` (whose fallback may update the hint). -/
def luaUnpack (t : LuaTableM) (iOpt jOpt : Option Int) : Except PyExc (List PyVal) :=
  let i := iOpt.getD 1
  match jOpt with
  | some j => unpackRange t i j
  | none =>
    let (j, t') := t.lengthM
    unpackRange t' i j

lemma beq_finite (x y : ℚ) :
    (LuaFloat.finite x == LuaFloat.finite y) = decide (x = y) := by
  by_cases h : x = y
  · simp [h]
  · rw [decide_eq_false h]
    exact beq_eq_false_iff_ne.mpr (by simpa using h)

example :
    (do let t ← tblPack [.int 1, .nil, .int 3]; luaUnpack t none none) =
      .ok [PyVal.int 1] := by rfl

/-- The iterator closure of `_ipairs` (stdlib.py): it increments the
captured mutable counter `i`, reads `t[i]`, and returns `[nil]` when
the value is absent and `[i, t[i]]` otherwise.  Its `iter_args`
parameter is ignored, exactly as in the source; the captured counter is
threaded explicitly as `counter`, and the updated counter is returned
alongside the results. -/
def ipairsIter (t : LuaTableM) (counter : Int) (_iterArgs : List PyVal) :
    Except PyExc (Int × List PyVal) := do
  let i := counter + 1
  let v ← t.rawget (.int i)
  if v = .nil then pure (i, [.nil]) else pure (i, [.int i, v])

/-- `_ipairs` (stdlib.py): returns the iterator closure (represented
here by its captured counter, initially 0), the table, and 0. -/
def luaIpairs (t : LuaTableM) : Int × LuaTableM × PyVal := (0, t, .int 0)

/-- The loop of `Interpreter._exec_generic_for` (interpreter.py)
specialized to the `ipairs` iterator with an effect-free body: call the
iterator, stop when there are no results or the first is nil, record
`(results[0], results[1])`, and continue with the updated closure
counter.  The `[state, control]` argument list the loop passes is
ignored by the iterator, so it is passed as `[]` here. -/
def ipairsForVisits (t : LuaTableM) : Int → Nat → Except PyExc (List (PyVal × PyVal))
  | _, 0 => .ok []
  | c, fuel + 1 => do
    let (c', res) ← ipairsIter t c []
    match res with
    | [] => pure []
    | r0 :: rest =>
      if r0 = .nil then pure []
      else do
        let tail ← ipairsForVisits t c' fuel
        pure ((r0, rest.headD .nil) :: tail)

/-- A two-element sequence table, as built by `rawset(1, 10)` and
`rawset(2, 20)` on a fresh table. -/
def ipairsSample : LuaTableM := ⟨[(.int 1, .int 10), (.int 2, .int 20)], 2⟩

example : (ipairsIter ipairsSample 0 [.table 0, .int 1]) = .ok (1, [.int 1, .int 10]) := by rfl

example : ipairsForVisits ipairsSample 0 3 =
    .ok [(.int 1, .int 10), (.int 2, .int 20)] := by rfl

lemma ipairsForVisits_step_stop (t : LuaTableM) (c : Int) (fuel : Nat)
    (h : t.rawget (.int (c + 1)) = .ok .nil) :
    ipairsForVisits t c (fuel + 1) = .ok [] := by
  rw [ipairsForVisits]
  unfold ipairsIter
  dsimp only
  rw [h]
  rfl

lemma ipairsForVisits_step_cons (t : LuaTableM) (c : Int) (fuel : Nat) (v : PyVal)
    (h : t.rawget (.int (c + 1)) = .ok v) (hv : v ≠ .nil) :
    ipairsForVisits t c (fuel + 1) =
      (ipairsForVisits t (c + 1) fuel).map
        (fun tail => (.int (c + 1), v) :: tail) := by
  rw [ipairsForVisits]
  unfold ipairsIter
  dsimp only
  rw [h]
  simp only [Bind.bind, Except.bind, if_neg hv, pure, Except.pure]
  cases ipairsForVisits t (c + 1) fuel with
  | error e => rfl
  | ok tail => rfl

lemma ipairsForVisits_spec (t : LuaTableM) (n : Int) (g : Int → PyVal)
    (hg : ∀ i : Int, 1 ≤ i → i ≤ n → t.rawget (.int i) = .ok (g i) ∧ g i ≠ .nil)
    (hend : t.rawget (.int (n + 1)) = .ok .nil) :
    ∀ (m : Nat) (c : Int), 0 ≤ c → c + m = n →
      ipairsForVisits t c (m + 1) =
        .ok ((List.range m).map
          (fun k : Nat => (.int (c + (k : Int) + 1), g (c + (k : Int) + 1)))) := by
  intro m
  induction m with
  | zero =>
    intro c hc0 hc
    have hcn : c = n := by push_cast at hc; omega
    subst hcn
    rw [ipairsForVisits_step_stop t c 0 hend]
    simp
  | succ m ih =>
    intro c hc0 hc
    push_cast at hc
    obtain ⟨hget, hne⟩ := hg (c + 1) (by omega) (by omega)
    rw [ipairsForVisits_step_cons t c (m + 1) (g (c + 1)) hget hne]
    rw [ih (c + 1) (by omega) (by omega)]
    simp only [Except.map, Except.ok.injEq]
    rw [List.range_succ_eq_map, List.map_cons, List.map_map]
    congr 1
    · norm_num
    · refine List.map_congr_left ?_
      intro k _
      simp only [Function.comp, Nat.cast_succ]
      have harith : c + ((k : Int) + 1) + 1 = c + 1 + (k : Int) + 1 := by ring
      rw [harith]

/-- `LuaTable.from_list` (lua_table.py): the items stored at keys
`1..n` directly in the dict, with the hint set to `n`. -/
def LuaTableM.fromList (items : List PyVal) : LuaTableM :=
  ⟨(items.enumFrom 1).map (fun p => (.int (p.1 : Int), p.2)), items.length⟩

lemma dictGet_enumFrom (vs : List PyVal) (s : Nat) (i : Int) :
    dictGet ((vs.enumFrom s).map (fun p => (.int (p.1 : Int), p.2))) (.int i) =
      if (s : Int) ≤ i ∧ i < (s : Int) + vs.length then
        some (vs.getD (i - s).toNat .nil)
      else none := by
  induction vs generalizing s with
  | nil =>
    simp only [List.enumFrom, List.map_nil, List.length_nil]
    rw [if_neg (by push_cast; omega)]
    rfl
  | cons v rest ih =>
    simp only [List.enumFrom, List.map_cons, List.length_cons]
    unfold dictGet
    rw [List.find?_cons]
    by_cases hi : i = (s : Int)
    · rw [show (pyEq (.int i) (.int (s : Int))) = true by rw [pyEq_int_int]; simp [hi]]
      rw [if_pos (by push_cast; omega)]
      simp [hi]
    · rw [show (pyEq (.int i) (.int (s : Int))) = false by rw [pyEq_int_int]; simp [hi]]
      have hrec := ih (s + 1)
      unfold dictGet at hrec
      rw [hrec]
      by_cases hC : (s : Int) ≤ i ∧ i < (s : Int) + ((rest.length : Int) + 1)
      · rw [if_pos (by push_cast at hC ⊢; omega), if_pos (by push_cast at hC ⊢; omega)]
        have hge : (i - s).toNat = (i - (s + 1 : Nat)).toNat + 1 := by push_cast; omega
        rw [hge, List.getD_cons_succ]
      · rw [if_neg (by push_cast at hC ⊢; omega), if_neg (by push_cast at hC ⊢; omega)]

lemma fromList_rawget (vs : List PyVal) (i : Int) :
    (LuaTableM.fromList vs).rawget (.int i) =
      .ok (if 1 ≤ i ∧ i < 1 + (vs.length : Int) then vs.getD (i - 1).toNat .nil
           else .nil) := by
  unfold LuaTableM.rawget LuaTableM.fromList
  simp only [normalizeKey, Bind.bind, Except.bind]
  rw [if_neg (show ¬(PyVal.int i = PyVal.nil) by simp)]
  rw [show dictGet ((vs.enumFrom 1).map (fun p => (.int (p.1 : Int), p.2))) (.int i) =
    _ from dictGet_enumFrom vs 1 i]
  by_cases hC : (1 : Int) ≤ i ∧ i < 1 + (vs.length : Int)
  · rw [if_pos (by push_cast at hC ⊢; omega), if_pos hC]
    rfl
  · rw [if_neg (by push_cast at hC ⊢; omega), if_neg hC]
    rfl

/-- C6 counterexample: with a nil among the packed values,
`table.unpack(table.pack(1, nil, 3))` returns the single value `1`
(because `unpack` defaults its upper bound to `#t`, which is 1 here),
not the three values `1, nil, 3`. -/
theorem claim_C6_counterexample :
    (do
      let t ← tblPack [.int 1, .nil, .int 3]
      luaUnpack t none none) = .ok [PyVal.int 1] ∧
    [PyVal.int 1] ≠ [PyVal.int 1, PyVal.nil, PyVal.int 3] :=
  ⟨rfl, by decide⟩

/-- C6 (amended): for non-nil values `a, b, c`,
`table.unpack(table.pack(a, b, c))` returns exactly `a, b, c`. -/
theorem claim_C6_pack_unpack (a b c : PyVal)
    (ha : a ≠ .nil) (hb : b ≠ .nil) (hc : c ≠ .nil) :
    (do
      let t ← tblPack [a, b, c]
      luaUnpack t none none) = .ok [a, b, c] := by
  have h21 : (LuaFloat.finite 2 == LuaFloat.finite 1) = false := by decide
  have h31 : (LuaFloat.finite 3 == LuaFloat.finite 1) = false := by decide
  have h32 : (LuaFloat.finite 3 == LuaFloat.finite 2) = false := by decide
  simp [tblPack, packLoop, LuaTableM.rawset, rawsetData, rawsetHint, normalizeKey,
    ha, hb, hc, Bind.bind, Except.bind, dictSet, dictMem, dictGet, dictPop,
    pyEq_int_int, extendHint, luaUnpack, LuaTableM.lengthM, unpackRange, rangeList,
    LuaTableM.rawget, keyIntVal, pyIsInstInt, List.find?, pyEq, pyNumVal,
    LuaFloat.pyEq, List.range, List.range.loop, pure, Except.pure,
    List.mapM.loop, beq_finite, h21, h31, h32]

/-- Witness for C6 at concrete non-nil values. -/
theorem claim_C6_pack_unpack_witness :
    (do
      let t ← tblPack [PyVal.int 10, PyVal.int 20, PyVal.int 30]
      luaUnpack t none none) = .ok [PyVal.int 10, PyVal.int 20, PyVal.int 30] :=
  claim_C6_pack_unpack (.int 10) (.int 20) (.int 30)
    (by decide) (by decide) (by decide)

/-- C9 counterexample: on the two-element sequence table, calling the
freshly created `ipairs` iterator with control argument 1 returns
`(1, t[1]) = (1, 10)` — the iterator ignores its arguments and uses its
captured counter — whereas the claim requires `(i+1, t[i+1]) = (2, 20)`. -/
theorem claim_C9_counterexample :
    ipairsIter ipairsSample 0 [.table 0, .int 1] = .ok (1, [.int 1, .int 10]) ∧
    [PyVal.int 1, PyVal.int 10] ≠ [PyVal.int 2, PyVal.int 20] :=
  ⟨rfl, by decide⟩

/-- C9 (amended): `ipairs(t)` returns `(iter, t, 0)` where `iter` is a
stateful closure that ignores its call arguments; its k-th call returns
`(k, t[k])` until the value is nil.  Used as the generic-for iterator
over a sequence table of length n, it visits exactly
`(1, t[1]) .. (n, t[n])` in order. -/
theorem claim_C9_ipairs (t : LuaTableM) (c : Int) (args : List PyVal)
    (v : PyVal) (hv : t.rawget (.int (c + 1)) = .ok v)
    (vs : List PyVal) (hvs : ∀ x ∈ vs, x ≠ .nil) :
    luaIpairs t = (0, t, .int 0) ∧
    ipairsIter t c args = ipairsIter t c [] ∧
    ipairsIter t c args =
      (if v = .nil then .ok (c + 1, [.nil]) else .ok (c + 1, [.int (c + 1), v])) ∧
    ipairsForVisits (.fromList vs) 0 (vs.length + 1) =
      .ok ((List.range vs.length).map
        (fun k : Nat => (.int ((k : Int) + 1), vs.getD k .nil))) := by
  refine ⟨rfl, rfl, ?_, ?_⟩
  · unfold ipairsIter
    dsimp only
    rw [hv]
    simp only [Bind.bind, Except.bind]
    by_cases hn : v = .nil
    · rw [if_pos hn, if_pos hn]
      rfl
    · rw [if_neg hn, if_neg hn]
      rfl
  · have hspec := ipairsForVisits_spec (.fromList vs) vs.length
      (fun i => vs.getD (i - 1).toNat .nil) ?_ ?_ vs.length 0 le_rfl (by omega)
    · rw [hspec]
      congr 1
      refine List.map_congr_left ?_
      intro k hk
      rw [List.mem_range] at hk
      dsimp only
      have h1 : (0 : Int) + (k : Int) + 1 = (k : Int) + 1 := by ring
      rw [h1]
      have h2 : ((k : Int) + 1 - 1).toNat = k := by omega
      rw [h2]
    · intro i h1 h2
      dsimp only
      constructor
      · rw [fromList_rawget, if_pos ⟨h1, by omega⟩]
      · have hlt : (i - 1).toNat < vs.length := by omega
        rw [List.getD_eq_getElem vs .nil hlt]
        exact hvs _ (List.getElem_mem hlt)
    · rw [fromList_rawget]
      rw [if_neg (by omega)]

/-- Witness for C9 at the two-element sample table. -/
theorem claim_C9_ipairs_witness :
    luaIpairs ipairsSample = (0, ipairsSample, .int 0) ∧
    ipairsIter ipairsSample 0 [.table 0, .int 0] = ipairsIter ipairsSample 0 [] ∧
    ipairsIter ipairsSample 0 [.table 0, .int 0] =
      (if PyVal.int 10 = PyVal.nil then .ok (1, [.nil])
       else .ok (1, [.int 1, .int 10])) ∧
    ipairsForVisits (.fromList [PyVal.int 10, PyVal.int 20]) 0 3 =
      .ok ((List.range 2).map
        (fun k : Nat => (.int ((k : Int) + 1),
          [PyVal.int 10, PyVal.int 20].getD k .nil))) :=
  claim_C9_ipairs ipairsSample 0 [.table 0, .int 0] (.int 10) (by rfl)
    [PyVal.int 10, PyVal.int 20] (by decide)

/-- `isinstance(v, (int, float))` in Python: bools are ints. -/
def pyIsNum : PyVal → Bool
  | .bool _ => true
  | .int _ => true
  | .float _ => true
  | _ => false

/-- Python `float(v)` on a bool/int/float (exact in this abstraction);
only evaluated on values satisfying `pyIsNum`. -/
def pyFloatOf : PyVal → LuaFloat
  | .bool b => .finite (if b then 1 else 0)
  | .int i => .finite (i : ℚ)
  | .float f => f
  | _ => .nan

/-- `Interpreter._raw_equal` (interpreter.py): nil equals only nil;
operands passing `isinstance(..., (int, float))` — which includes
bools, since Python bool subclasses int — compare as
`float(a) == float(b)`; tables compare by identity (`a is b`);
everything else falls back to Python `==`. -/
def rawEqual (a b : PyVal) : Bool :=
  if a = .nil ∧ b = .nil then true
  else if a = .nil ∨ b = .nil then false
  else if pyIsNum a ∧ pyIsNum b then (pyFloatOf a).pyEq (pyFloatOf b)
  else
    match a with
    | .table i =>
      match b with
      | .table j => decide (i = j)
      | _ => false
    | _ => pyEq a b

/-- `Interpreter._eval_equality` (interpreter.py): raw equality first;
when it is false and both operands are tables of the same Python type,
consult the `__eq` metamethod — abstracted as the oracle `eqMM`, giving
the truthiness-coerced call result when a metamethod exists; `~=`
negates the result. -/
def evalEquality (eqMM : Nat → Nat → Option Bool) (op : String) (l r : PyVal) : Bool :=
  let result := rawEqual l r
  let result :=
    if result = false then
      match l, r with
      | .table i, .table j =>
        match eqMM i j with
        | some v => v
        | none => result
      | _, _ => result
    else result
  if op = "==" then result else !result

/-- C4: the code evaluates `true == 1` to true, not false.
`_raw_equal` guards its numeric branch with
`isinstance(a, (int, float))`, which is satisfied by Python bools, so
`true` and `1` compare as `float(True) == float(1)`; the claim (and the
spec table of §4.3) requires different primitive types to compare
unequal.  `~=` is still the negation. -/
theorem claim_C4_bool_number_equality (eqMM : Nat → Nat → Option Bool) :
    rawEqual (.bool true) (.int 1) = true ∧
    evalEquality eqMM "==" (.bool true) (.int 1) = true ∧
    evalEquality eqMM "~=" (.bool true) (.int 1) = false := by
  refine ⟨by decide, ?_, ?_⟩ <;> rfl

/-- `_lua_type` (interpreter.py), for error messages. -/
def luaTypeName : PyVal → String
  | .nil => "nil"
  | .bool _ => "boolean"
  | .int _ => "number"
  | .float _ => "number"
  | .str _ => "string"
  | .table _ => "table"
  | .builtin _ => "function"

/-- `_toint` (interpreter.py): an int (or bool, by Python subclassing)
passes through with its value; a float passes when integral (Python
`int(v)` raises on inf/nan); a string goes through `_tonum` and back —
string-to-number parsing is abstracted as the oracle `strNum`, since no
claim exercises string coercion; everything else gives None. -/
def toInt (strNum : String → Option (Int ⊕ LuaFloat)) :
    PyVal → Except PyExc (Option Int)
  | .bool b => .ok (some (if b then 1 else 0))
  | .int i => .ok (some i)
  | .float f => do
    let iv ← pyIntOfFloat f
    if pyFloatOfInt iv == f then pure (some iv) else pure none
  | .str s =>
    match strNum s with
    | some (.inl i) => .ok (some i)
    | some (.inr f) => do
      let iv ← pyIntOfFloat f
      if pyFloatOfInt iv == f then pure (some iv) else pure none
    | none => .ok none
  | _ => .ok none

/-- Python `~` on ints. -/
def pyInvert (a : Int) : Int := -a - 1

/-- Python `<<` on ints: exactly `a * 2 ^ b`; a negative shift count
raises `ValueError`. -/
def pyLshift (a b : Int) : Except PyExc Int :=
  if b < 0 then .error (.valueError "negative shift count")
  else .ok (a * 2 ^ b.toNat)

/-- Python `>>` on ints: arithmetic shift, exactly `floor(a / 2 ^ b)`;
a negative shift count raises `ValueError`. -/
def pyRshift (a b : Int) : Except PyExc Int :=
  if b < 0 then .error (.valueError "negative shift count")
  else .ok (Int.fdiv a (2 ^ b.toNat))

/-- Python `&` on ints: two's-complement bitwise and, with negatives
handled through the identity `~x = -x - 1`. -/
def pyAnd (a b : Int) : Int :=
  if 0 ≤ a then
    if 0 ≤ b then (Nat.land a.toNat b.toNat : Nat)
    else (Nat.ldiff a.toNat (pyInvert b).toNat : Nat)
  else
    if 0 ≤ b then (Nat.ldiff b.toNat (pyInvert a).toNat : Nat)
    else pyInvert (Nat.lor (pyInvert a).toNat (pyInvert b).toNat : Nat)

/-- Python `|` on ints, by De Morgan over `pyAnd`. -/
def pyOr (a b : Int) : Int := pyInvert (pyAnd (pyInvert a) (pyInvert b))

/-- Python `^` (xor) on ints: `(a | b) & ~(a & b)`. -/
def pyXor (a b : Int) : Int := pyAnd (pyOr a b) (pyInvert (pyAnd a b))

/-- `Interpreter._bitwise` (interpreter.py): coerce both operands with
`_toint`; if both succeed apply the operator; otherwise consult the
metamethod (abstracted as the oracle `mmO`, giving the first result of
the metamethod call when one exists) and finally raise the bitwise
type error. -/
def bitwise (strNum : String → Option (Int ⊕ LuaFloat))
    (mmO : PyVal → PyVal → Option PyVal)
    (opf : Int → Int → Except PyExc Int) (l r : PyVal) : Except PyExc PyVal := do
  let ia ← toInt strNum l
  let ib ← toInt strNum r
  match ia, ib with
  | some a, some b => do
    let res ← opf a b
    pure (.int res)
  | _, _ =>
    match mmO l r with
    | some v => pure v
    | none =>
      throw (.luaRuntimeError ("attempt to perform bitwise operation on a " ++
        luaTypeName (if ia = none then l else r) ++ " value"))

/-- The unary `~` branch of `Interpreter._eval_unaryop`
(interpreter.py). -/
def evalBnot (strNum : String → Option (Int ⊕ LuaFloat))
    (mmO : PyVal → Option PyVal) (v : PyVal) : Except PyExc PyVal := do
  let iv ← toInt strNum v
  match iv with
  | some i => pure (.int (pyInvert i))
  | none =>
    match mmO v with
    | some r => pure r
    | none =>
      throw (.luaRuntimeError ("attempt to perform bitwise operation on a " ++
        luaTypeName v ++ " value"))

/-- Modelled from the spec (C5): the claimed 64-bit wraparound — reduce
modulo `2 ^ 64` and reinterpret as a signed two's-complement 64-bit
integer. -/
def specWrap64 (x : Int) : Int := (x + 2 ^ 63) % 2 ^ 64 - 2 ^ 63

/-- C5 counterexample: `1 << 64` evaluates to `2 ^ 64` (Python
arbitrary-precision), whereas the claimed 64-bit wraparound result is
0. -/
theorem claim_C5_counterexample :
    bitwise (fun _ => none) (fun _ _ => none) pyLshift (.int 1) (.int 64) =
      .ok (.int 18446744073709551616) ∧
    specWrap64 18446744073709551616 = 0 ∧
    (18446744073709551616 : Int) ≠ 0 := by
  refine ⟨by rfl, by decide, by decide⟩

/-- C5 (amended): the bitwise operators compute exact
arbitrary-precision results with no 64-bit reduction: `a << b` is
`a * 2 ^ b` and `a >> b` is `floor(a / 2 ^ b)` (for `b ≥ 0`), unary `~a`
is `-a - 1`; these agree with the claimed wraparound semantics exactly
when the result lies in `[-2 ^ 63, 2 ^ 63)` — in particular `1 << 64`
yields `2 ^ 64`, whose wrapped value would be 0. -/
theorem claim_C5_bitwise_exact (strNum : String → Option (Int ⊕ LuaFloat))
    (mmO : PyVal → PyVal → Option PyVal) (mmO1 : PyVal → Option PyVal)
    (a b : Int) (hb : 0 ≤ b) :
    bitwise strNum mmO pyLshift (.int a) (.int b) = .ok (.int (a * 2 ^ b.toNat)) ∧
    bitwise strNum mmO pyRshift (.int a) (.int b) =
      .ok (.int (Int.fdiv a (2 ^ b.toNat))) ∧
    evalBnot strNum mmO1 (.int a) = .ok (.int (-a - 1)) ∧
    (∀ x : Int, -(2 ^ 63) ≤ x → x < 2 ^ 63 → specWrap64 x = x) ∧
    specWrap64 (1 * 2 ^ (64 : Nat)) = 0 := by
  refine ⟨?_, ?_, rfl, ?_, by decide⟩
  · simp only [bitwise, toInt, Bind.bind, Except.bind, pyLshift,
      if_neg (by omega : ¬ b < 0), pure, Except.pure]
  · simp only [bitwise, toInt, Bind.bind, Except.bind, pyRshift,
      if_neg (by omega : ¬ b < 0), pure, Except.pure]
  · intro x h1 h2
    unfold specWrap64
    omega

/-- Witness for C5 at `a = 1`, `b = 64`. -/
theorem claim_C5_bitwise_exact_witness :
    (bitwise (fun _ => none) (fun _ _ => none) pyLshift (.int 1) (.int 64) =
      .ok (.int (1 * 2 ^ (64 : Int).toNat)) ∧
    bitwise (fun _ => none) (fun _ _ => none) pyRshift (.int 1) (.int 64) =
      .ok (.int (Int.fdiv 1 (2 ^ (64 : Int).toNat))) ∧
    evalBnot (fun _ => none) (fun _ => none) (.int 1) = .ok (.int (-1 - 1)) ∧
    (∀ x : Int, -(2 ^ 63) ≤ x → x < 2 ^ 63 → specWrap64 x = x) ∧
    specWrap64 (1 * 2 ^ (64 : Nat)) = 0) :=
  claim_C5_bitwise_exact (fun _ => none) (fun _ _ => none) (fun _ => none)
    1 64 (by decide)

/-- The payload of `NumberLiteral` (ast_nodes.py): int or float. -/
inductive NumV where
  | int (i : Int)
  | float (f : LuaFloat)
deriving DecidableEq, Repr

mutual

/-- The expression nodes of ast_nodes.py (line numbers omitted; they do
not affect semantics). -/
inductive LExpr where
  | nilLit
  | trueLit
  | falseLit
  | num (value : NumV)
  | strLit (value : String)
  | varArg
  | name (s : String)
  | index (table : LExpr) (key : LExpr)
  | field (table : LExpr) (fieldName : String)
  | binOp (op : String) (left : LExpr) (right : LExpr)
  | unOp (op : String) (operand : LExpr)
  | callE (func : LExpr) (args : List LExpr)
  | methodCall (obj : LExpr) (methodName : String) (args : List LExpr)
  | funcBody (params : List String) (hasVarargs : Bool) (body : List LStmt)
  | tableCtor (fields : List (Option LExpr × LExpr))

/-- The statement nodes of ast_nodes.py; a `Block` is a statement
list. -/
inductive LStmt where
  | assign (targets : List LExpr) (values : List LExpr)
  | localStat (names : List String) (attribs : List (Option String)) (values : List LExpr)
  | doBlock (body : List LStmt)
  | whileLoop (cond : LExpr) (body : List LStmt)
  | repeatLoop (body : List LStmt) (cond : LExpr)
  | ifStat (clauses : List (Option LExpr × List LStmt))
  | numFor (nm : String) (start stop : LExpr) (step : Option LExpr) (body : List LStmt)
  | genFor (names : List String) (iters : List LExpr) (body : List LStmt)
  | ret (values : List LExpr)
  | brk
  | callStat (call : LExpr)
  | gotoStat (label : String)
  | labelStat (nm : String)

end

/-- `_is_truthy` (interpreter.py): only nil and false are falsy. -/
def isTruthy : PyVal → Bool
  | .nil => false
  | .bool false => false
  | _ => true

/-- A single value or a `MultiRes` (interpreter.py). -/
inductive EvalV where
  | single (v : PyVal)
  | multi (vs : List PyVal)
deriving DecidableEq, Repr

/-- `_first` (interpreter.py): a MultiRes collapses to its first
element, or nil when empty. -/
def firstVal : EvalV → PyVal
  | .single v => v
  | .multi vs => vs.headD .nil

/-- `Environment` (interpreter.py): local bindings with a parent
pointer. -/
inductive Env where
  | root
  | node (vars : List (String × PyVal)) (parent : Env)

/-- `Environment.get_local`: walk outward; return the value and whether
it was found. -/
def Env.getLocal : Env → String → PyVal × Bool
  | .root, _ => (.nil, false)
  | .node vars p, n =>
    match vars.find? (fun e => e.1 == n) with
    | some e => (e.2, true)
    | none => p.getLocal n

/-- `Interpreter._get_var`: environment chain first, then the globals
table (string keys never raise in `rawget`). -/
def getVar (g : LuaTableM) (n : String) (env : Env) : PyVal :=
  let (v, found) := env.getLocal n
  if found then v
  else
    match g.rawget (.str n) with
    | .ok gv => gv
    | .error _ => .nil

/-- The host-function return shapes `_call_function` normalizes in its
builtin branch: Python None, a list, or a single value. -/
inductive BRes where
  | noneRes
  | listRes (vs : List PyVal)
  | oneRes (v : PyVal)

/-- `Interpreter._call_function` restricted to the callee kinds the
claims exercise: nil raises, a builtin invokes the host function
(abstracted as the oracle `B` over the builtin id) and normalizes its
result.  User closures and the `__call` metamethod are outside the
modelled fragment; other callees raise the type error as in the
source's final branch. -/
def callFunction (B : Nat → List PyVal → BRes) (f : PyVal) (args : List PyVal) :
    Except PyExc (List PyVal) :=
  match f with
  | .nil => .error (.luaRuntimeError "attempt to call a nil value")
  | .builtin id =>
    .ok (match B id args with
      | .noneRes => []
      | .listRes vs => vs
      | .oneRes v => [v])
  | _ => .error (.luaRuntimeError ("attempt to call a " ++ luaTypeName f ++ " value"))

mutual

/-- `Interpreter._eval` restricted to the node kinds the claims
exercise: literals, name lookup, and function-call expressions (which
produce a `MultiRes`).  Other node kinds are outside the modelled
fragment and report a distinguished error.  Expressions are not
ticked, and the modelled fragment does not mutate state. -/
def evalE (B : Nat → List PyVal → BRes) (g : LuaTableM) :
    Nat → LExpr → Env → Except PyExc EvalV
  | 0, _, _ => .error (.luaRuntimeError "model fuel exhausted")
  | fuel + 1, e, env =>
    match e with
    | .nilLit => .ok (.single .nil)
    | .trueLit => .ok (.single (.bool true))
    | .falseLit => .ok (.single (.bool false))
    | .num (.int i) => .ok (.single (.int i))
    | .num (.float f) => .ok (.single (.float f))
    | .strLit s => .ok (.single (.str s))
    | .name n => .ok (.single (getVar g n env))
    | .callE f args => do
      let fv ← evalE B g fuel f env
      let argVals ← evalExplist B g fuel args env
      let res ← callFunction B (firstVal fv) argVals
      pure (.multi res)
    | _ => .error (.luaRuntimeError "node outside modelled fragment")

/-- `Interpreter._eval_explist`: evaluate each expression, collapsing
non-terminal results to their first value and expanding a terminal
`MultiRes` in place.  (The model's fuel decreases at every recursive
step; any sufficiently large fuel yields the source behaviour.) -/
def evalExplist (B : Nat → List PyVal → BRes) (g : LuaTableM) :
    Nat → List LExpr → Env → Except PyExc (List PyVal)
  | _, [], _ => .ok []
  | 0, _, _ => .error (.luaRuntimeError "model fuel exhausted")
  | fuel + 1, [last], env => do
    let v ← evalE B g fuel last env
    match v with
    | .multi vs => pure vs
    | .single x => pure [x]
  | fuel + 1, e :: rest, env => do
    let v ← evalE B g fuel e env
    let tail ← evalExplist B g fuel rest env
    pure (firstVal v :: tail)

end

/-- The quota-relevant interpreter state: `Interpreter.instructions`
and `max_instructions`. -/
structure InterpSt where
  instructions : Int
  maxInstructions : Int
deriving DecidableEq, Repr

/-- `Interpreter._tick`: increment the instruction counter and fail
with `execution quota exceeded` once it passes `max_instructions`. -/
def tick (s : InterpSt) : Except PyExc InterpSt :=
  let s : InterpSt := { s with instructions := s.instructions + 1 }
  if s.instructions > s.maxInstructions then
    .error (.luaRuntimeError "execution quota exceeded")
  else .ok s

/-- Non-local control outcomes of statement execution: normal
completion, `BreakSignal`, or `ReturnSignal(values)` (errors.py; raised
and caught as exceptions in the source, sum-typed here). -/
inductive ExecOut where
  | normal
  | breakSig
  | returnSig (vals : List PyVal)

mutual

/-- `Interpreter._exec_stmt`: tick first, then dispatch.  `goto` and
label statements are no-ops, as in the source; statement kinds that the
claims do not exercise are outside the modelled fragment. -/
def execStmt (B : Nat → List PyVal → BRes) (g : LuaTableM) :
    Nat → InterpSt → LStmt → Env → Except PyExc (InterpSt × ExecOut)
  | 0, _, _, _ => .error (.luaRuntimeError "model fuel exhausted")
  | fuel + 1, s, stmt, env => do
    let s ← tick s
    match stmt with
    | .whileLoop cond body => execWhile B g fuel s cond body env
    | .ret values => do
      let vals ← evalExplist B g fuel values env
      pure (s, .returnSig vals)
    | .brk => pure (s, .breakSig)
    | .callStat e => do
      let _ ← evalE B g fuel e env
      pure (s, .normal)
    | .gotoStat _ => pure (s, .normal)
    | .labelStat _ => pure (s, .normal)
    | _ => .error (.luaRuntimeError "statement outside modelled fragment")

/-- `Interpreter._exec_block`: statements in order; any signal stops
the block and propagates.  (Fuel decreases at every recursive step.) -/
def execBlock (B : Nat → List PyVal → BRes) (g : LuaTableM) :
    Nat → InterpSt → List LStmt → Env → Except PyExc (InterpSt × ExecOut)
  | _, s, [], _ => .ok (s, .normal)
  | 0, _, _, _ => .error (.luaRuntimeError "model fuel exhausted")
  | fuel + 1, s, stmt :: rest, env => do
    let (s, out) ← execStmt B g fuel s stmt env
    match out with
    | .normal => execBlock B g fuel s rest env
    | other => pure (s, other)

/-- `Interpreter._exec_while`: evaluate the condition with `eval_expr`;
while truthy, tick, execute the body in a fresh child environment
(catching `BreakSignal`); a `ReturnSignal` propagates. -/
def execWhile (B : Nat → List PyVal → BRes) (g : LuaTableM) :
    Nat → InterpSt → LExpr → List LStmt → Env → Except PyExc (InterpSt × ExecOut)
  | 0, _, _, _, _ => .error (.luaRuntimeError "model fuel exhausted")
  | fuel + 1, s, cond, body, env => do
    let c ← evalE B g fuel cond env
    if isTruthy (firstVal c) then do
      let s ← tick s
      let (s, out) ← execBlock B g fuel s body (.node [] env)
      match out with
      | .breakSig => pure (s, .normal)
      | .returnSig vs => pure (s, .returnSig vs)
      | .normal => execWhile B g fuel s cond body env
    else pure (s, .normal)

end

/-- The program `while true do end`. -/
def whileTrueProg : List LStmt := [.whileLoop .trueLit []]

example : evalE (fun _ _ => BRes.noneRes) ⟨[], 0⟩ 1 .trueLit .root =
    .ok (.single (.bool true)) := by rfl

lemma evalE_trueLit (B : Nat → List PyVal → BRes) (g : LuaTableM) (env : Env)
    (fuel : Nat) (hf : 1 ≤ fuel) :
    evalE B g fuel .trueLit env = .ok (.single (.bool true)) := by
  cases fuel with
  | zero => omega
  | succ f => rfl

lemma tick_overflow (s : InterpSt) (h : s.maxInstructions ≤ s.instructions) :
    tick s = .error (.luaRuntimeError "execution quota exceeded") := by
  unfold tick
  rw [if_pos (by dsimp only; omega)]

lemma tick_ok (s : InterpSt) (h : s.instructions < s.maxInstructions) :
    tick s = .ok ⟨s.instructions + 1, s.maxInstructions⟩ := by
  unfold tick
  rw [if_neg (by dsimp only; omega)]

lemma execWhile_true_quota (B : Nat → List PyVal → BRes) (g : LuaTableM) (env : Env) :
    ∀ (fuel : Nat) (s : InterpSt), s.instructions ≤ s.maxInstructions →
    (s.maxInstructions - s.instructions).toNat + 2 ≤ fuel →
    execWhile B g fuel s .trueLit [] env =
      .error (.luaRuntimeError "execution quota exceeded") := by
  intro fuel
  induction fuel with
  | zero =>
    intro s h1 h2
    omega
  | succ f ih =>
    intro s h1 h2
    rw [execWhile, evalE_trueLit B g env f (by omega)]
    by_cases hm : s.instructions < s.maxInstructions
    · rw [tick_ok s hm]
      simp only [Bind.bind, Except.bind, firstVal, isTruthy, if_true]
      have hblock : execBlock B g f (⟨s.instructions + 1, s.maxInstructions⟩ : InterpSt)
          [] (.node [] env) = .ok (⟨s.instructions + 1, s.maxInstructions⟩, .normal) := by
        cases f <;> rfl
      rw [hblock]
      exact ih ⟨s.instructions + 1, s.maxInstructions⟩ (by dsimp only; omega)
        (by dsimp only; omega)
    · rw [tick_overflow s (by omega)]
      rfl

/-- C2: the instruction counter is incremented at the start of every
statement (so any statement under an exhausted budget fails immediately
with `execution quota exceeded`) and at every `while` iteration, and
under any non-negative budget `while true do end` terminates with that
runtime error reaching the host — in particular with
`max_instructions = 1000`. -/
theorem claim_C2_instruction_quota (B : Nat → List PyVal → BRes) (g : LuaTableM)
    (env : Env) :
    (∀ (fuel : Nat) (s : InterpSt) (stmt : LStmt) (env' : Env),
      s.maxInstructions ≤ s.instructions →
      execStmt B g (fuel + 1) s stmt env' =
        .error (.luaRuntimeError "execution quota exceeded")) ∧
    (∀ maxI : Int, 0 ≤ maxI →
      execBlock B g (maxI.toNat + 4) ⟨0, maxI⟩ whileTrueProg env =
        .error (.luaRuntimeError "execution quota exceeded")) ∧
    execBlock B g 1004 ⟨0, 1000⟩ whileTrueProg env =
      .error (.luaRuntimeError "execution quota exceeded") := by
  have hstmt : ∀ (fuel : Nat) (s : InterpSt) (stmt : LStmt) (env' : Env),
      s.maxInstructions ≤ s.instructions →
      execStmt B g (fuel + 1) s stmt env' =
        .error (.luaRuntimeError "execution quota exceeded") := by
    intro fuel s stmt env' h
    rw [execStmt, tick_overflow s h]
    rfl
  have hprog : ∀ maxI : Int, 0 ≤ maxI →
      execBlock B g (maxI.toNat + 4) ⟨0, maxI⟩ whileTrueProg env =
        .error (.luaRuntimeError "execution quota exceeded") := by
    intro maxI hmax
    show execBlock B g (maxI.toNat + 3 + 1) ⟨0, maxI⟩ [.whileLoop .trueLit []] env = _
    rw [execBlock, execStmt]
    by_cases h0 : maxI = 0
    · subst h0
      rw [tick_overflow ⟨0, 0⟩ (by dsimp only; omega)]
      rfl
    · rw [tick_ok ⟨0, maxI⟩ (by dsimp only; omega)]
      simp only [Bind.bind, Except.bind]
      rw [execWhile_true_quota B g env (maxI.toNat + 2)
        ⟨0 + 1, maxI⟩ (by dsimp only; omega) (by dsimp only; omega)]
  refine ⟨hstmt, hprog, ?_⟩
  have h1000 := hprog 1000 (by decide)
  exact h1000

/-- Witness for C2: a concrete exhausted-budget statement and the
concrete 1000-instruction run. -/
theorem claim_C2_instruction_quota_witness :
    (execStmt (fun _ _ => BRes.noneRes) ⟨[], 0⟩ 1 ⟨5, 5⟩ .brk .root =
      .error (.luaRuntimeError "execution quota exceeded")) ∧
    execBlock (fun _ _ => BRes.noneRes) ⟨[], 0⟩ 1004 ⟨0, 1000⟩ whileTrueProg .root =
      .error (.luaRuntimeError "execution quota exceeded") :=
  ⟨(claim_C2_instruction_quota (fun _ _ => BRes.noneRes) ⟨[], 0⟩ .root).1
      0 ⟨5, 5⟩ .brk .root (by decide),
   (claim_C2_instruction_quota (fun _ _ => BRes.noneRes) ⟨[], 0⟩ .root).2.2⟩

/-- The token kinds of lexer.py (`TK`). -/
inductive TokK where
  | tNumber
  | tString
  | tName
  | tAnd
  | tBreak
  | tDo
  | tElse
  | tElseif
  | tEnd
  | tFalse
  | tFor
  | tFunction
  | tGoto
  | tIf
  | tIn
  | tLocal
  | tNil
  | tNot
  | tOr
  | tRepeat
  | tReturn
  | tThen
  | tTrue
  | tUntil
  | tWhile
  | tPlus
  | tMinus
  | tStar
  | tSlash
  | tIdiv
  | tPercent
  | tCaret
  | tHash
  | tAmp
  | tTilde
  | tPipe
  | tLshift
  | tRshift
  | tEq
  | tNeq
  | tLt
  | tLe
  | tGt
  | tGe
  | tAssign
  | tLparen
  | tRparen
  | tLbrace
  | tRbrace
  | tLbracket
  | tRbracket
  | tDcolon
  | tSemicolon
  | tColon
  | tComma
  | tDot
  | tDotdot
  | tDots
  | tEof
deriving DecidableEq, Repr

/-- A token value: numbers carry a NumV, strings and names carry their
text, other tokens carry their lexeme or nothing. -/
inductive TokV where
  | noneV
  | numV (n : NumV)
  | strV (s : String)
deriving DecidableEq, Repr

/-- A token (lexer.py `Token`). -/
structure Token where
  kind : TokK
  value : TokV
  line : Nat
deriving DecidableEq, Repr

/-- The text of a NAME/STRING token's value. -/
def TokV.text : TokV → String
  | .strV s => s
  | _ => ""

/-- The parser state: `Parser.tokens` and `Parser.pos`.  The source
indexes `tokens[pos]` unguardedly, relying on the trailing EOF token;
out-of-range reads yield an EOF token here. -/
structure PSt where
  tokens : List Token
  pos : Nat
deriving DecidableEq, Repr

/-- `Parser._cur`. -/
def PSt.cur (st : PSt) : Token := st.tokens.getD st.pos ⟨.tEof, .noneV, 0⟩

/-- `Parser._peek_kind`. -/
def PSt.peekKind (st : PSt) : TokK := st.cur.kind

/-- `Parser._line`. -/
def PSt.line (st : PSt) : Nat := st.cur.line

/-- `self.pos += 1`. -/
def PSt.advance (st : PSt) : PSt := { st with pos := st.pos + 1 }

/-- `Parser._match`: consume and return the current token when it has
the given kind. -/
def pMatch (st : PSt) (k : TokK) : Option Token × PSt :=
  if st.peekKind = k then (some st.cur, st.advance) else (none, st)

/-- `Parser._expect`: like `_match` but a `SyntaxError` (with the
current line) on mismatch.  The message is the caller-supplied
description; the source's interpolated got-token text is not
reproduced. -/
def pExpect (st : PSt) (k : TokK) (msg : String) : Except PyExc (Token × PSt) :=
  match pMatch st k with
  | (some tok, st') => .ok (tok, st')
  | (none, _) => .error (.luaSyntaxError msg st.line)

/-- `_BINARY_OPS` (parser.py): precedence and right-associativity per
binary-operator token. -/
def binaryOps : TokK → Option (Nat × Bool)
  | .tOr => some (1, false)
  | .tAnd => some (2, false)
  | .tLt => some (3, false)
  | .tGt => some (3, false)
  | .tLe => some (3, false)
  | .tGe => some (3, false)
  | .tNeq => some (3, false)
  | .tEq => some (3, false)
  | .tPipe => some (4, false)
  | .tTilde => some (5, false)
  | .tAmp => some (6, false)
  | .tLshift => some (7, false)
  | .tRshift => some (7, false)
  | .tDotdot => some (8, true)
  | .tPlus => some (9, false)
  | .tMinus => some (9, false)
  | .tStar => some (10, false)
  | .tSlash => some (10, false)
  | .tIdiv => some (10, false)
  | .tPercent => some (10, false)
  | .tCaret => some (12, true)
  | _ => none

/-- `_BINOP_NAMES` (parser.py). -/
def binopName : TokK → String
  | .tPlus => "+"
  | .tMinus => "-"
  | .tStar => "*"
  | .tSlash => "/"
  | .tIdiv => "//"
  | .tPercent => "%"
  | .tCaret => "^"
  | .tAmp => "&"
  | .tTilde => "~"
  | .tPipe => "|"
  | .tLshift => "<<"
  | .tRshift => ">>"
  | .tEq => "=="
  | .tNeq => "~="
  | .tLt => "<"
  | .tLe => "<="
  | .tGt => ">"
  | .tGe => ">="
  | .tAnd => "and"
  | .tOr => "or"
  | .tDotdot => ".."
  | _ => "?"

/-- `Parser._tokens_ahead_is_assign`. -/
def tokensAheadIsAssign (st : PSt) : Bool :=
  decide (st.pos + 1 < st.tokens.length) &&
    decide ((st.tokens.getD (st.pos + 1) ⟨.tEof, .noneV, 0⟩).kind = .tAssign)

section ExprParser

/-! The expression sub-grammar of parser.py is embedded function by
function below.  Its single dependency on the statement layer —
`_parse_funcbody`, reached through the `function` branch of
`_parse_simple_expr` — is abstracted as the oracle `pfb` (given the
fuel and the state after the `function` keyword, it returns the parsed
FunctionBody node and new state); none of the claims parses a function
literal.  All functions consume one fuel unit per call: any
sufficiently large fuel yields the source behaviour. -/

variable (pfb : Nat → PSt → Except PyExc (LExpr × PSt))

mutual

/-- `Parser._parse_expression`: Pratt loop, precedence-climbing. -/
def parseExpression : Nat → Nat → PSt → Except PyExc (LExpr × PSt)
  | 0, _, _ => .error (.luaSyntaxError "model fuel exhausted" 0)
  | fuel + 1, minPrec, st => do
    let (left, st) ← parseUnary fuel st
    parseBinLoop fuel minPrec left st

/-- The `while True` operator loop inside `_parse_expression`. -/
def parseBinLoop : Nat → Nat → LExpr → PSt → Except PyExc (LExpr × PSt)
  | 0, _, _, _ => .error (.luaSyntaxError "model fuel exhausted" 0)
  | fuel + 1, minPrec, left, st =>
    match binaryOps st.peekKind with
    | none => .ok (left, st)
    | some (prec, isRight) =>
      if prec < minPrec then .ok (left, st)
      else do
        let k := st.peekKind
        let st := st.advance
        let nextPrec := if isRight then prec else prec + 1
        let (right, st) ← parseExpression fuel nextPrec st
        parseBinLoop fuel minPrec (.binOp (binopName k) left right) st

/-- `Parser._parse_unary`: `not # - ~` bind at precedence 11. -/
def parseUnary : Nat → PSt → Except PyExc (LExpr × PSt)
  | 0, _ => .error (.luaSyntaxError "model fuel exhausted" 0)
  | fuel + 1, st =>
    match st.peekKind with
    | .tNot => do
      let (operand, st') ← parseExpression fuel 11 st.advance
      pure (.unOp "not" operand, st')
    | .tHash => do
      let (operand, st') ← parseExpression fuel 11 st.advance
      pure (.unOp "#" operand, st')
    | .tMinus => do
      let (operand, st') ← parseExpression fuel 11 st.advance
      pure (.unOp "-" operand, st')
    | .tTilde => do
      let (operand, st') ← parseExpression fuel 11 st.advance
      pure (.unOp "~" operand, st')
    | _ => parseSuffixedExpr fuel st

/-- `Parser._parse_suffixed_expr`: a primary followed by field, index,
method-call and call suffixes. -/
def parseSuffixedExpr : Nat → PSt → Except PyExc (LExpr × PSt)
  | 0, _ => .error (.luaSyntaxError "model fuel exhausted" 0)
  | fuel + 1, st => do
    let (e, st) ← parsePrimary fuel st
    parseSuffixes fuel e st

/-- The `while True` suffix loop inside `_parse_suffixed_expr`. -/
def parseSuffixes : Nat → LExpr → PSt → Except PyExc (LExpr × PSt)
  | 0, _, _ => .error (.luaSyntaxError "model fuel exhausted" 0)
  | fuel + 1, e, st =>
    match st.peekKind with
    | .tDot => do
      let (tok, st) ← pExpect st.advance .tName "field name"
      parseSuffixes fuel (.field e tok.value.text) st
    | .tLbracket => do
      let (key, st) ← parseExpression fuel 0 st.advance
      let (_, st) ← pExpect st .tRbracket "rbracket"
      parseSuffixes fuel (.index e key) st
    | .tColon => do
      let (tok, st) ← pExpect st.advance .tName "method name"
      let (args, st) ← parseCallArgs fuel st
      parseSuffixes fuel (.methodCall e tok.value.text args) st
    | .tLparen => do
      let (args, st) ← parseCallArgs fuel st
      parseSuffixes fuel (.callE e args) st
    | .tLbrace => do
      let (args, st) ← parseCallArgs fuel st
      parseSuffixes fuel (.callE e args) st
    | .tString => do
      let (args, st) ← parseCallArgs fuel st
      parseSuffixes fuel (.callE e args) st
    | _ => .ok (e, st)

/-- `Parser._parse_call_args`: a parenthesised expression list, a table
constructor, or a single string literal. -/
def parseCallArgs : Nat → PSt → Except PyExc (List LExpr × PSt)
  | 0, _ => .error (.luaSyntaxError "model fuel exhausted" 0)
  | fuel + 1, st =>
    match pMatch st .tLparen with
    | (some _, st) =>
      if st.peekKind = .tRparen then do
        let (_, st) ← pExpect st .tRparen "rparen"
        pure ([], st)
      else do
        let (args, st) ← parseExpressionList fuel st
        let (_, st) ← pExpect st .tRparen "rparen"
        pure (args, st)
    | (none, st) =>
      if st.peekKind = .tLbrace then do
        let (tc, st) ← parseTableCtor fuel st
        pure ([tc], st)
      else if st.peekKind = .tString then
        .ok ([.strLit st.cur.value.text], st.advance)
      else .error (.luaSyntaxError "function arguments expected" st.line)

/-- `Parser._parse_primary`: a name, a parenthesised expression —
returned as-is, with no wrapper node — or a simple expression. -/
def parsePrimary : Nat → PSt → Except PyExc (LExpr × PSt)
  | 0, _ => .error (.luaSyntaxError "model fuel exhausted" 0)
  | fuel + 1, st =>
    match st.peekKind with
    | .tName => .ok (.name st.cur.value.text, st.advance)
    | .tLparen => do
      let (e, st) ← parseExpression fuel 0 st.advance
      let (_, st) ← pExpect st .tRparen "rparen"
      pure (e, st)
    | _ => parseSimpleExpr fuel st

/-- `Parser._parse_simple_expr`: literals, varargs, function literals
(through the `pfb` oracle) and table constructors. -/
def parseSimpleExpr : Nat → PSt → Except PyExc (LExpr × PSt)
  | 0, _ => .error (.luaSyntaxError "model fuel exhausted" 0)
  | fuel + 1, st =>
    match st.peekKind with
    | .tNumber =>
      match st.cur.value with
      | .numV n => .ok (.num n, st.advance)
      | _ => .ok (.num (.int 0), st.advance)
    | .tString => .ok (.strLit st.cur.value.text, st.advance)
    | .tNil => .ok (.nilLit, st.advance)
    | .tTrue => .ok (.trueLit, st.advance)
    | .tFalse => .ok (.falseLit, st.advance)
    | .tDots => .ok (.varArg, st.advance)
    | .tFunction => do
      let (_, st) ← pExpect st .tFunction "function"
      pfb fuel st
    | .tLbrace => parseTableCtor fuel st
    | _ => .error (.luaSyntaxError "unexpected symbol" st.line)

/-- `Parser._parse_table_constructor`. -/
def parseTableCtor : Nat → PSt → Except PyExc (LExpr × PSt)
  | 0, _ => .error (.luaSyntaxError "model fuel exhausted" 0)
  | fuel + 1, st => do
    let (_, st) ← pExpect st .tLbrace "lbrace"
    let (fields, st) ← parseTableFields fuel [] st
    let (_, st) ← pExpect st .tRbrace "rbrace"
    pure (.tableCtor fields, st)

/-- The field loop inside `_parse_table_constructor`: `[k] = v`,
`name = v` (when the next token is `=`), or a positional field;
fields separated by `,` or `;`. -/
def parseTableFields : Nat → List (Option LExpr × LExpr) → PSt →
    Except PyExc (List (Option LExpr × LExpr) × PSt)
  | 0, _, _ => .error (.luaSyntaxError "model fuel exhausted" 0)
  | fuel + 1, acc, st =>
    if st.peekKind = .tRbrace then .ok (acc, st)
    else do
      let (fld, st) ←
        if st.peekKind = .tLbracket then do
          let (key, st) ← parseExpression fuel 0 st.advance
          let (_, st) ← pExpect st .tRbracket "rbracket"
          let (_, st) ← pExpect st .tAssign "assign"
          let (val, st) ← parseExpression fuel 0 st
          pure ((some key, val), st)
        else if st.peekKind = .tName ∧ tokensAheadIsAssign st then do
          let nameTok := st.cur
          let st := st.advance
          let (_, st) ← pExpect st .tAssign "assign"
          let (val, st) ← parseExpression fuel 0 st
          pure (((some (.strLit nameTok.value.text) : Option LExpr), val), st)
        else do
          let (val, st) ← parseExpression fuel 0 st
          pure (((none : Option LExpr), val), st)
      match pMatch st .tComma with
      | (some _, st) => parseTableFields fuel (acc ++ [fld]) st
      | (none, st) =>
        match pMatch st .tSemicolon with
        | (some _, st) => parseTableFields fuel (acc ++ [fld]) st
        | (none, st) => .ok (acc ++ [fld], st)

/-- `Parser._parse_expression_list`. -/
def parseExpressionList : Nat → PSt → Except PyExc (List LExpr × PSt)
  | 0, _ => .error (.luaSyntaxError "model fuel exhausted" 0)
  | fuel + 1, st => do
    let (e, st) ← parseExpression fuel 0 st
    parseExplistLoop fuel [e] st

/-- The comma loop inside `_parse_expression_list`. -/
def parseExplistLoop : Nat → List LExpr → PSt → Except PyExc (List LExpr × PSt)
  | 0, _, _ => .error (.luaSyntaxError "model fuel exhausted" 0)
  | fuel + 1, acc, st =>
    match pMatch st .tComma with
    | (some _, st) => do
      let (e, st) ← parseExpression fuel 0 st
      parseExplistLoop fuel (acc ++ [e]) st
    | (none, st) => .ok (acc, st)

end

end ExprParser

/-- A symbolic token on line 1. -/
def tk (k : TokK) : Token := ⟨k, .noneV, 1⟩

/-- A NAME token on line 1. -/
def tkName (s : String) : Token := ⟨.tName, .strV s, 1⟩

/-- A funcbody oracle that always fails; the inputs below never reach
the `function` branch, so the results do not depend on it. -/
def deadPfb : Nat → PSt → Except PyExc (LExpr × PSt) := fun _ st =>
  .error (.luaSyntaxError "funcbody oracle unused" st.line)

/-- Tokens of `g((f()))`. -/
def toksParen : List Token :=
  [tkName "g", tk .tLparen, tk .tLparen, tkName "f", tk .tLparen, tk .tRparen,
   tk .tRparen, tk .tRparen, tk .tEof]

/-- Tokens of `g(f())`. -/
def toksBare : List Token :=
  [tkName "g", tk .tLparen, tkName "f", tk .tLparen, tk .tRparen,
   tk .tRparen, tk .tEof]

/-- Tokens of `(f())`. -/
def toksInner : List Token :=
  [tk .tLparen, tkName "f", tk .tLparen, tk .tRparen, tk .tRparen, tk .tEof]

/-- C3 counterexample: `(f())` parses to exactly the same AST as `f()`
— the parser's LPAREN branch returns the inner expression with no
wrapper node — so as the terminal argument of `g(...)` the
parenthesised call still expands: with `f` returning two values the
argument list evaluates to two values, not one (its first). -/
theorem claim_C3_counterexample :
    parseExpression deadPfb 20 0 ⟨toksParen, 0⟩ =
      .ok (.callE (.name "g") [.callE (.name "f") []], ⟨toksParen, 8⟩) ∧
    parseExpression deadPfb 20 0 ⟨toksBare, 0⟩ =
      .ok (.callE (.name "g") [.callE (.name "f") []], ⟨toksBare, 6⟩) ∧
    evalExplist (fun _ _ => BRes.listRes [.int 1, .int 2]) ⟨[], 0⟩ 10
      [.callE (.name "f") []] (.node [("f", .builtin 0)] .root) =
      .ok [.int 1, .int 2] ∧
    [PyVal.int 1, PyVal.int 2].length ≠ 1 :=
  ⟨rfl, rfl, rfl, by decide⟩

/-- C3 (amended): parenthesising adds no node — whenever the inner
expression parse succeeds and the next token is `)`, `_parse_primary`
on `( e )` returns exactly the inner AST — and a terminal MultiRes in
an expression list is expanded in place, so a parenthesised call in
terminal position contributes all its values. -/
theorem claim_C3_paren_transparent
    (pfb : Nat → PSt → Except PyExc (LExpr × PSt)) (fuel : Nat) (st st' : PSt)
    (e : LExpr) (hlp : st.peekKind = .tLparen)
    (hinner : parseExpression pfb fuel 0 st.advance = .ok (e, st'))
    (hrp : st'.peekKind = .tRparen)
    (B : Nat → List PyVal → BRes) (g : LuaTableM) (efuel : Nat) (env : Env)
    (last : LExpr) (vs : List PyVal)
    (hev : evalE B g efuel last env = .ok (.multi vs)) :
    parsePrimary pfb (fuel + 1) st = .ok (e, st'.advance) ∧
    evalExplist B g (efuel + 1) [last] env = .ok vs := by
  constructor
  · rw [parsePrimary, hlp, hinner]
    simp only [Bind.bind, Except.bind, pExpect, pMatch, hrp, if_pos]
    rfl
  · rw [evalExplist, hev]
    rfl

/-- Witness for C3 at the tokens of `(f())` and a builtin `f` returning
two values. -/
theorem claim_C3_paren_transparent_witness :
    parsePrimary deadPfb 20 ⟨toksInner, 0⟩ =
      .ok (.callE (.name "f") [], (⟨toksInner, 4⟩ : PSt).advance) ∧
    evalExplist (fun _ _ => BRes.listRes [.int 1, .int 2]) ⟨[], 0⟩ 10
      [.callE (.name "f") []] (.node [("f", .builtin 0)] .root) =
      .ok [.int 1, .int 2] :=
  claim_C3_paren_transparent deadPfb 19 ⟨toksInner, 0⟩ ⟨toksInner, 4⟩
    (.callE (.name "f") []) rfl rfl rfl
    (fun _ _ => BRes.listRes [.int 1, .int 2]) ⟨[], 0⟩ 9
    (.node [("f", .builtin 0)] .root) (.callE (.name "f") []) [.int 1, .int 2] rfl

/-- The characters written as braces (kept out of literals). -/
def lbraceC : Char := Char.ofNat 123

/-- The closing-brace character. -/
def rbraceC : Char := Char.ofNat 125

/-- The single-quote character. -/
def squoteC : Char := Char.ofNat 39

/-- The value of a hexadecimal digit, if the character is one. -/
def hexVal? (c : Char) : Option Nat :=
  if c.isDigit then some (c.toNat - 48)
  else if 'a' ≤ c ∧ c ≤ 'f' then some (c.toNat - 87)
  else if 'A' ≤ c ∧ c ≤ 'F' then some (c.toNat - 55)
  else none

/-- Whether every character is a hex digit. -/
def allHex (cs : List Char) : Bool := cs.all (fun c => (hexVal? c).isSome)

/-- The value of a hex-digit string. -/
def hexToNat (cs : List Char) : Nat :=
  cs.foldl (fun a c => a * 16 + (hexVal? c).getD 0) 0

/-- Python `int(s, 16)`: an optional sign followed by at least one hex
digit; anything else raises `ValueError`.  (Python also tolerates
surrounding whitespace and embedded underscores; those inputs are not
exercised here.) -/
def pyIntBase16 (cs : List Char) : Except PyExc Int :=
  match cs with
  | '-' :: rest =>
    if rest ≠ [] ∧ allHex rest then .ok (-(hexToNat rest : Int))
    else .error (.valueError "invalid literal for int with base 16")
  | '+' :: rest =>
    if rest ≠ [] ∧ allHex rest then .ok ((hexToNat rest : Int))
    else .error (.valueError "invalid literal for int with base 16")
  | _ =>
    if cs ≠ [] ∧ allHex cs then .ok ((hexToNat cs : Int))
    else .error (.valueError "invalid literal for int with base 16")

/-- Python `chr(v)`: valid for code points `0 .. 0x10FFFF`, otherwise
`ValueError`. -/
def pyChr (v : Int) : Except PyExc Nat :=
  if 0 ≤ v ∧ v ≤ 0x10FFFF then .ok v.toNat
  else .error (.valueError "chr arg not in range")

/-- The `while ... != '\x7d'` collection loop of the `\u` escape:
collect characters up to the closing brace, threading the line counter
(`_advance` counts newlines) and reporting whether the brace was
found. -/
def spanToRbrace : List Char → Nat → List Char × List Char × Nat × Bool
  | [], line => ([], [], line, false)
  | c :: rest, line =>
    if c = rbraceC then ([], rest, line, true)
    else
      let (cs, r, l, b) := spanToRbrace rest (if c = '\n' then line + 1 else line)
      (c :: cs, r, l, b)

/-- The whitespace-skipping loop of the `\z` escape.  The source
increments the line counter twice per newline here: once explicitly and
once inside `_advance`. -/
def skipWhitespaceZ : List Char → Nat → List Char × Nat
  | [], line => ([], line)
  | c :: rest, line =>
    if c = ' ' ∨ c = '\t' ∨ c = '\n' ∨ c = '\r' ∨ c = '\x0c' ∨ c = '\x0b' then
      skipWhitespaceZ rest (if c = '\n' then line + 2 else line)
    else (c :: rest, line)

/-- The up-to-three-digit collection loop of the `\DDD` escape. -/
def takeDigits : List Char → Nat → List Char × List Char
  | cs, 0 => ([], cs)
  | [], _ => ([], [])
  | c :: rest, n + 1 =>
    if c.isDigit then
      let (ds, r) := takeDigits rest n
      (c :: ds, r)
    else ([], c :: rest)

/-- Python `int(s)` on a nonempty decimal-digit string. -/
def digitsToNat (ds : List Char) : Nat :=
  ds.foldl (fun a c => a * 10 + (c.toNat - 48)) 0

/-- `Lexer._read_string` (lexer.py), on the source text following the
opening quote, with the line counter threaded and the decoded string
returned as a list of code points (Python `chr` can produce lone
surrogates, which Lean `Char` cannot hold).  Returns the decoded
content, the remaining source and the line.  Each loop iteration
consumes at least one character, so fuel `src.length + 1` suffices.
The `\u` branch is the one branch whose conversions
(`int(hex_str, 16)` and `chr`) are not validated by the lexer and can
raise `ValueError`. -/
def readString (quote : Char) : Nat → List Char → Nat → List Nat →
    Except PyExc (List Nat × List Char × Nat)
  | 0, _, line, _ => .error (.luaSyntaxError "model fuel exhausted" line)
  | fuel + 1, src, line, buf =>
    match src with
    | [] => .error (.luaSyntaxError "unfinished string" line)
    | ch :: rest =>
      if ch = quote then .ok (buf, rest, line)
      else if ch = '\n' ∨ ch = '\r' then .error (.luaSyntaxError "unfinished string" line)
      else if ch = '\\' then
        match rest with
        | [] => .error (.luaSyntaxError "invalid escape sequence" line)
        | esc :: r2 =>
          if esc = 'a' then readString quote fuel r2 line (buf ++ [7])
          else if esc = 'b' then readString quote fuel r2 line (buf ++ [8])
          else if esc = 'f' then readString quote fuel r2 line (buf ++ [12])
          else if esc = 'n' then readString quote fuel r2 line (buf ++ [10])
          else if esc = 'r' then readString quote fuel r2 line (buf ++ [13])
          else if esc = 't' then readString quote fuel r2 line (buf ++ [9])
          else if esc = 'v' then readString quote fuel r2 line (buf ++ [11])
          else if esc = '\\' then readString quote fuel r2 line (buf ++ [92])
          else if esc = squoteC then readString quote fuel r2 line (buf ++ [39])
          else if esc = '"' then readString quote fuel r2 line (buf ++ [34])
          else if esc = '\n' then readString quote fuel r2 (line + 1) (buf ++ [10])
          else if esc = '\r' then
            match r2 with
            | '\n' :: r3 => readString quote fuel r3 (line + 1) (buf ++ [10])
            | _ => readString quote fuel r2 line (buf ++ [10])
          else if esc = 'x' then
            match r2 with
            | c1 :: c2 :: r3 =>
              match hexVal? c1, hexVal? c2 with
              | some v1, some v2 => readString quote fuel r3 line (buf ++ [v1 * 16 + v2])
              | _, _ => .error (.luaSyntaxError "invalid escape sequence" line)
            | _ => .error (.luaSyntaxError "invalid escape sequence" line)
          else if esc = 'u' then
            match r2 with
            | c :: r3 =>
              if c = lbraceC then
                match spanToRbrace r3 line with
                | (hexStr, rest', line', true) => do
                  let v ← pyIntBase16 hexStr
                  let cp ← pyChr v
                  readString quote fuel rest' line' (buf ++ [cp])
                | (_, _, line', false) =>
                  .error (.luaSyntaxError "invalid escape sequence" line')
              else .error (.luaSyntaxError "invalid escape sequence" line)
            | [] => .error (.luaSyntaxError "invalid escape sequence" line)
          else if esc = 'z' then
            match skipWhitespaceZ r2 line with
            | (rest', line') => readString quote fuel rest' line' buf
          else if esc.isDigit then
            match takeDigits (esc :: r2) 3 with
            | (digits, rest') =>
              if digitsToNat digits > 255 then
                .error (.luaSyntaxError "decimal escape too large" line)
              else readString quote fuel rest' line (buf ++ [digitsToNat digits])
          else .error (.luaSyntaxError "invalid escape sequence" line)
      else readString quote fuel rest line (buf ++ [ch.toNat])

/-- C1: the lexing of the short string `"\u{g}"` raises Python
`ValueError`, not `LuaSyntaxError`: `_read_string` collects everything
up to the closing brace and passes it to `int(hex_str, 16)` without
validation.  (A well-formed escape such as `"\u{41}"` decodes fine, as
in the test suite.) -/
theorem claim_C1_unvalidated_unicode_escape :
    readString '"' 7 ['\\', 'u', lbraceC, 'g', rbraceC, '"'] 1 [] =
      .error (.valueError "invalid literal for int with base 16") ∧
    (∀ msg line, readString '"' 7 ['\\', 'u', lbraceC, 'g', rbraceC, '"'] 1 [] ≠
      .error (.luaSyntaxError msg line)) ∧
    readString '"' 8 ['\\', 'u', lbraceC, '4', '1', rbraceC, '"'] 1 [] =
      .ok ([65], [], 1) := by
  refine ⟨rfl, ?_, rfl⟩
  intro msg line h
  rw [show readString '"' 7 ['\\', 'u', lbraceC, 'g', rbraceC, '"'] 1 [] =
    .error (.valueError "invalid literal for int with base 16") from rfl] at h
  simp at h

end AbstraLua
